import Mathlib

/-!
# The 24-bit BMP codec of the `mini` image library

A shallow embedding of `Image.hpp`, `BMPHeader.hpp`, `Image.cpp` and of the byte
reader and writer they use, followed by theorems about the codec.

Conventions of the embedding:

* `int` values are mathematical integers; every `int` operation of the source is
  followed by `wrap32`, the reduction to the two's-complement 32-bit range, and
  `/` is the truncating division of C++ (`Int.tdiv`).
* `double` channel values are exact rationals.
* The host is little-endian, as the file format requires of the header record.
* A call that leaves the function other than by `return` (an exception of the
  standard library, a failed `assert`, an index outside a vector) is a `Fault`.
-/

namespace mini

/-! ## Machine integers and bytes -/

/-- A byte (`std::uint8_t`). -/
abbrev Byte := Fin 256

/-- Reduction of an integer to the range of a 32-bit two's-complement `int`. -/
@[irreducible] def wrap32 (x : Int) : Int := (x + 2147483648) % 4294967296 - 2147483648

/-- Addition of two `int`s. -/
def iadd (a b : Int) : Int := wrap32 (a + b)

/-- Subtraction of two `int`s. -/
def isub (a b : Int) : Int := wrap32 (a - b)

/-- Multiplication of two `int`s. -/
def imul (a b : Int) : Int := wrap32 (a * b)

/-- Division of two `int`s, truncating toward zero. -/
def idiv (a b : Int) : Int := wrap32 (Int.tdiv a b)

/-- The call `std::abs(int)`. -/
def iabs (a : Int) : Int := if a < 0 then wrap32 (-a) else a

/-- The byte holding the low eight bits of an integer. -/
def byteOfInt (t : Int) : Byte := ⟨(t % 256).toNat, by omega⟩

/-- The two bytes of a 16-bit unsigned value, low byte first. -/
def le16 (n : Nat) : List Byte := [byteOfInt n, byteOfInt (n / 256)]

/-- The four bytes of a 32-bit unsigned value, low byte first. -/
def le32 (n : Nat) : List Byte :=
  [byteOfInt n, byteOfInt (n / 256), byteOfInt (n / 65536), byteOfInt (n / 16777216)]

/-- The four bytes of a 32-bit signed value in two's complement, low byte first. -/
def le32s (x : Int) : List Byte := le32 (x % 4294967296).toNat

/-- The byte at offset `i` of a byte sequence, `0` beyond its end. -/
def byteAt (bs : List Byte) (i : Nat) : Nat := (bs.getD i 0).val

/-- The 16-bit unsigned value stored low byte first at offset `i`. -/
def u16At (bs : List Byte) (i : Nat) : Nat := byteAt bs i + 256 * byteAt bs (i + 1)

/-- The 32-bit unsigned value stored low byte first at offset `i`. -/
def u32At (bs : List Byte) (i : Nat) : Nat :=
  byteAt bs i + 256 * byteAt bs (i + 1) + 65536 * byteAt bs (i + 2)
    + 16777216 * byteAt bs (i + 3)

/-- The 32-bit signed value stored in two's complement, low byte first, at offset `i`. -/
def i32At (bs : List Byte) (i : Nat) : Int := wrap32 (u32At bs i)

/-- The ways a call can end other than by returning. -/
inductive Fault where
  | lengthError
  | assertion
  | outOfRange
  deriving DecidableEq, Repr

/-! ## Color.hpp -/

/-- The class `Color`: three channels, here exact rationals. -/
structure Color where
  r : ℚ
  g : ℚ
  b : ℚ
  deriving DecidableEq

/-- The constructor `Color{ rgb }` of a grey. -/
def Color.gray (rgb : ℚ) : Color := ⟨rgb, rgb, rgb⟩

/-! ## Quantization (Image.cpp, lines 52 to 54) -/

/-- The call `std::clamp(v, lo, hi)`. -/
def clamp (v lo hi : ℚ) : ℚ := if v < lo then lo else if hi < v then hi else v

/-- The conversion `static_cast<std::uint8_t>(v)`: truncation toward zero, then the
low eight bits. -/
def toUInt8 (v : ℚ) : Byte := byteOfInt (if 0 ≤ v then ⌊v⌋ else ⌈v⌉)

/-- The byte stored for a channel:
`static_cast<std::uint8_t>(std::clamp((c * 255.0 + 0.5), 0.0, 255.0))`. -/
def quantize (c : ℚ) : Byte := toUInt8 (clamp (c * 255 + 1 / 2) 0 255)

/-- The quantization as the specification words it: clamp the channel to `[0, 1]`,
scale by 255, round to the nearest integer with ties rounded up. -/
def quantizeSpec (c : ℚ) : Int := ⌊clamp c 0 1 * 255 + 1 / 2⌋

/-! ## Image.hpp -/

/-- The class `Image`: the pixel vector and the two dimensions. -/
structure Image where
  m_pixels : List Color
  m_width : Int
  m_height : Int
  deriving DecidableEq

namespace Image

/-- The default constructor `Image()`: no pixels, width and height 0. -/
def empty : Image := ⟨[], 0, 0⟩

/-- The constructor `Image(int width, int height, const Color& fillColor)`.
`m_pixels.resize(n, fillColor)` takes `n` as an unsigned size, so a negative
`width * height` asks for more than `max_size()` elements and throws. -/
def create (width height : Int) (fillColor : Color) : Except Fault Image :=
  if width ≤ 0 ∨ height ≤ 0 then
    .ok empty
  else if imul width height < 0 then
    .error .lengthError
  else
    .ok ⟨List.replicate (imul width height).toNat fillColor, width, height⟩

/-- The member `width()`. -/
def width (image : Image) : Int := image.m_width

/-- The member `height()`. -/
def height (image : Image) : Int := image.m_height

/-- The member `numPixels()`. -/
def numPixels (image : Image) : Int := wrap32 image.m_pixels.length

/-- The member `isEmpty()`. -/
def isEmpty (image : Image) : Bool := image.m_pixels.isEmpty

/-- The member `inBounds(y, x)`. -/
def inBounds (image : Image) (y x : Int) : Bool :=
  decide (0 ≤ y) && decide (y < image.m_height) && decide (0 ≤ x) && decide (x < image.m_width)

/-- Reading `m_pixels[i]`; an index outside the vector is a fault. -/
def pixelAt (image : Image) (i : Int) : Except Fault Color :=
  if 0 ≤ i then
    match image.m_pixels[i.toNat]? with
    | some c => .ok c
    | none => .error .outOfRange
  else .error .outOfRange

/-- Writing `m_pixels[i] = color`; an index outside the vector is a fault. -/
def setPixelAt (image : Image) (i : Int) (color : Color) : Except Fault Image :=
  if 0 ≤ i ∧ i < image.m_pixels.length then
    .ok { image with m_pixels := image.m_pixels.set i.toNat color }
  else .error .outOfRange

/-- The member `getPixel(y, x)`. -/
def getPixel (image : Image) (y x : Int) : Except Fault Color :=
  if !image.inBounds y x then
    .ok (Color.gray 0)
  else
    image.pixelAt (iadd (imul y image.m_width) x)

/-- The member `setPixel(y, x, color)`. -/
def setPixel (image : Image) (y x : Int) (color : Color) : Except Fault Image :=
  if !image.inBounds y x then
    .ok image
  else
    image.setPixelAt (iadd (imul y image.m_width) x) color

/-- The member `operator [](int y)`: the offset in `m_pixels` of the first pixel of
row `y`, after the `assert` on `y`. -/
def rowPtr (image : Image) (y : Int) : Except Fault Int :=
  if 0 ≤ y ∧ y < image.m_height then .ok (imul y image.m_width) else .error .assertion

/-- The expression `image[y][x]` read: the pointer of row `y` advanced by `x`. -/
def readRow (image : Image) (y x : Int) : Except Fault Color :=
  (image.rowPtr y).bind fun p => image.pixelAt (p + x)

/-- The statement `image[y][x] = color`. -/
def writeRow (image : Image) (y x : Int) (color : Color) : Except Fault Image :=
  (image.rowPtr y).bind fun p => image.setPixelAt (p + x) color

/-- The member `fill(fillColor)`. -/
def fill (image : Image) (fillColor : Color) : Image :=
  { image with m_pixels := image.m_pixels.map fun _ => fillColor }

/-- The class invariant: non-negative dimensions and `width * height` pixels. -/
def WF (image : Image) : Prop :=
  0 ≤ image.m_width ∧ 0 ≤ image.m_height ∧
    (image.m_pixels.length : Int) = image.m_width * image.m_height

instance (image : Image) : Decidable image.WF := by
  unfold WF
  infer_instance

end Image

/-! ## BMPHeader.hpp -/

/-- The record `BMPHeader`, 54 bytes under `#pragma pack(push, 2)`. -/
structure BMPHeader where
  bfType : Nat
  bfSize : Nat
  bfReserved1 : Nat
  bfReserved2 : Nat
  bfOffBits : Nat
  biSize : Nat
  biWidth : Int
  biHeight : Int
  biPlanes : Nat
  biBitCount : Nat
  biCompression : Nat
  biSizeImage : Nat
  biXPelsPerMeter : Int
  biYPelsPerMeter : Int
  biClrUsed : Nat
  biClrImportant : Nat
  deriving DecidableEq

namespace BMPHeader

/-- The default member initialisers of `BMPHeader`. -/
def init : BMPHeader :=
  { bfType := 0x4D42, bfSize := 0, bfReserved1 := 0, bfReserved2 := 0, bfOffBits := 54,
    biSize := 40, biWidth := 0, biHeight := 0, biPlanes := 1, biBitCount := 24,
    biCompression := 0, biSizeImage := 0, biXPelsPerMeter := 0, biYPelsPerMeter := 0,
    biClrUsed := 0, biClrImportant := 0 }

/-- The row size `((width * 3 + 3) / 4) * 4` computed in `int`, as written in
`BMPHeader::Make`, `SaveBMP` and `LoadBMP`. -/
def rowSize (width : Int) : Int := imul (idiv (iadd (imul width 3) 3) 4) 4

/-- The function `BMPHeader::Make(width, height)`. The sum for `bfSize` is taken in
`std::size_t` and stored in 32 bits. -/
def Make (width height : Int) : BMPHeader :=
  { init with
    biWidth := width
    biHeight := height
    bfSize := ((54 + imul (rowSize width) height) % 4294967296).toNat
    biSizeImage := (imul (rowSize width) height % 4294967296).toNat }

/-- The 54 bytes of the record in memory: the fields in declaration order, each low
byte first, with no padding between them. -/
def toBytes (h : BMPHeader) : List Byte :=
  le16 h.bfType ++ le32 h.bfSize ++ le16 h.bfReserved1 ++ le16 h.bfReserved2
    ++ le32 h.bfOffBits ++ le32 h.biSize ++ le32s h.biWidth ++ le32s h.biHeight
    ++ le16 h.biPlanes ++ le16 h.biBitCount ++ le32 h.biCompression ++ le32 h.biSizeImage
    ++ le32s h.biXPelsPerMeter ++ le32s h.biYPelsPerMeter ++ le32 h.biClrUsed
    ++ le32 h.biClrImportant

/-- The record whose memory holds the given bytes. -/
def ofBytes (bs : List Byte) : BMPHeader :=
  { bfType := u16At bs 0, bfSize := u32At bs 2, bfReserved1 := u16At bs 6,
    bfReserved2 := u16At bs 8, bfOffBits := u32At bs 10, biSize := u32At bs 14,
    biWidth := i32At bs 18, biHeight := i32At bs 22, biPlanes := u16At bs 26,
    biBitCount := u16At bs 28, biCompression := u32At bs 30, biSizeImage := u32At bs 34,
    biXPelsPerMeter := i32At bs 38, biYPelsPerMeter := i32At bs 42,
    biClrUsed := u32At bs 46, biClrImportant := u32At bs 50 }

end BMPHeader
/-! ## BinaryFileWriter.cpp -/

/-- The state of a `BinaryFileWriter`: whether the file is open, whether the stream
is still good, how many more bytes the file can take, and the bytes it holds. -/
structure BinaryFileWriter where
  isOpen : Bool
  good : Bool
  room : Nat
  written : List Byte
  deriving DecidableEq

namespace BinaryFileWriter

/-- The member `write(data, size)`: `std::ofstream::write`, which returns nothing.
A write that does not fit stores what fits and leaves the stream in a failed state,
in which later writes do nothing. -/
def write (w : BinaryFileWriter) (data : List Byte) : BinaryFileWriter :=
  if !w.isOpen || !w.good then w
  else if data.length ≤ w.room then
    { w with room := w.room - data.length, written := w.written ++ data }
  else
    { w with good := false, room := 0, written := w.written ++ data.take w.room }

end BinaryFileWriter

/-- A writer just opened on a new file that can take `room` bytes. -/
def BinaryFileWriter.opened (room : Nat) : BinaryFileWriter := ⟨true, true, room, []⟩

/-- Modelled from the spec: the template overload `BinaryFileWriter::write(const T&)`
of `BinaryFileWriter.hpp`, which is not among the sources; it writes the header
verbatim, the 54 bytes of the record. -/
def BinaryFileWriter.writeHeader (w : BinaryFileWriter) (h : BMPHeader) : BinaryFileWriter :=
  w.write h.toBytes

/-! ## BinaryFileReader.cpp -/

/-- The state of a `BinaryFileReader`: whether the file is open and the bytes of
the file not read so far. -/
structure BinaryFileReader where
  isOpen : Bool
  rest : List Byte
  deriving DecidableEq

namespace BinaryFileReader

/-- A reader just opened on a file with the given content. -/
def ofBytes (bs : List Byte) : BinaryFileReader := ⟨true, bs⟩

/-- The member `read(data, size)`: up to `size` bytes are copied to the start of the
buffer; the result is the number of bytes read, the buffer and the reader. -/
def read (rd : BinaryFileReader) (buf : List Byte) (size : Nat) :
    Int × List Byte × BinaryFileReader :=
  let got := rd.rest.take size
  ((got.length : Int), got ++ buf.drop got.length, { rd with rest := rd.rest.drop size })

end BinaryFileReader

/-- Modelled from the spec: the template overload `BinaryFileReader::read(T&)` of
`BinaryFileReader.hpp`, which is not among the sources; it reads the 54 bytes of the
record over the given one and returns the number of bytes read. -/
def BinaryFileReader.readHeader (rd : BinaryFileReader) (h : BMPHeader) :
    Int × BMPHeader × BinaryFileReader :=
  let res := rd.read h.toBytes 54
  (res.1, BMPHeader.ofBytes res.2.1, res.2.2)

/-! ## Image.cpp -/

/-- The construction `std::vector<std::uint8_t>(n, 0)` with an `int` argument: the
size is unsigned, so a negative `n` exceeds `max_size()` and throws. -/
def newRowData (n : Int) : Except Fault (List Byte) :=
  if n < 0 then .error .lengthError else .ok (List.replicate n.toNat 0)

/-- Reading `rowData[i]`. -/
def rowGet (rowData : List Byte) (i : Int) : Except Fault Byte :=
  if 0 ≤ i then
    match rowData[i.toNat]? with
    | some b => .ok b
    | none => .error .outOfRange
  else .error .outOfRange

/-- Writing `rowData[i] = v`. -/
def rowSet (rowData : List Byte) (i : Int) (v : Byte) : Except Fault (List Byte) :=
  if 0 ≤ i ∧ i < rowData.length then .ok (rowData.set i.toNat v) else .error .outOfRange

/-- The body of the inner loop of `SaveBMP` (lines 49 to 58) for one `x`. -/
def savePixel (image : Image) (height y x : Int) (rowData : List Byte) :
    Except Fault (List Byte) :=
  (image.readRow (isub (isub height 1) y) x).bind fun color =>
  (rowSet rowData (iadd (imul x 3) 0) (quantize color.b)).bind fun rowData =>
  (rowSet rowData (iadd (imul x 3) 1) (quantize color.g)).bind fun rowData =>
  rowSet rowData (iadd (imul x 3) 2) (quantize color.r)

/-- The inner loop of `SaveBMP`, `for (int x = ...; x < width; ++x)`, with `n`
iterations left. -/
def saveRowPixels (image : Image) (height y : Int) :
    Nat → Int → List Byte → Except Fault (List Byte)
  | 0, _, rowData => .ok rowData
  | n + 1, x, rowData =>
    (savePixel image height y x rowData).bind fun rowData =>
    saveRowPixels image height y n (x + 1) rowData

/-- The outer loop of `SaveBMP`, `for (int y = ...; y < height; ++y)`, with `n`
iterations left. -/
def saveRows (image : Image) (width height rowSize : Int) :
    Nat → Int → List Byte → BinaryFileWriter → Except Fault BinaryFileWriter
  | 0, _, _, writer => .ok writer
  | n + 1, y, rowData, writer =>
    (saveRowPixels image height y width.toNat 0 rowData).bind fun rowData =>
    saveRows image width height rowSize n (y + 1) rowData
      (writer.write (rowData.take rowSize.toNat))

/-- The function `SaveBMP(image, fileName)`, given the writer as its constructor
left it; the result is the returned `bool` and the writer at the return. -/
def SaveBMP (image : Image) (writer : BinaryFileWriter) :
    Except Fault (Bool × BinaryFileWriter) :=
  let width := image.width
  let height := image.height
  let rowSize := BMPHeader.rowSize width
  let header := BMPHeader.Make width height
  if !writer.isOpen then
    .ok (false, writer)
  else
    let writer := writer.writeHeader header
    (newRowData rowSize).bind fun rowData =>
    (saveRows image width height rowSize height.toNat 0 rowData writer).bind fun writer =>
    .ok (true, writer)

/-- The body of the inner loop of `LoadBMP` (lines 109 to 125) for one `x`. -/
def loadPixel (biHeight height y x : Int) (rowData : List Byte) (image : Image) :
    Except Fault Image :=
  (rowGet rowData (iadd (imul x 3) 0)).bind fun b =>
  (rowGet rowData (iadd (imul x 3) 1)).bind fun g =>
  (rowGet rowData (iadd (imul x 3) 2)).bind fun r =>
  let color : Color := ⟨(r.val : ℚ) / 255, (g.val : ℚ) / 255, (b.val : ℚ) / 255⟩
  if 0 < biHeight then
    image.writeRow (isub (isub height 1) y) x color
  else
    image.writeRow y x color

/-- The inner loop of `LoadBMP`, with `n` iterations left. -/
def loadRowPixels (biHeight height y : Int) (rowData : List Byte) :
    Nat → Int → Image → Except Fault Image
  | 0, _, image => .ok image
  | n + 1, x, image =>
    (loadPixel biHeight height y x rowData image).bind fun image =>
    loadRowPixels biHeight height y rowData n (x + 1) image

/-- The outer loop of `LoadBMP`, with `n` iterations left. A short read returns the
empty image from the function. -/
def loadRows (biHeight width height rowSize : Int) :
    Nat → Int → List Byte → BinaryFileReader → Image → Except Fault Image
  | 0, _, _, _, image => .ok image
  | n + 1, y, rowData, reader, image =>
    let res := reader.read rowData rowSize.toNat
    if res.1 ≠ rowSize then
      .ok Image.empty
    else
      (loadRowPixels biHeight height y res.2.1 width.toNat 0 image).bind fun image =>
      loadRows biHeight width height rowSize n (y + 1) res.2.1 res.2.2 image

/-- The function `LoadBMP(fileName)`, given the reader as its constructor left it. -/
def LoadBMP (reader : BinaryFileReader) : Except Fault Image :=
  if !reader.isOpen then
    .ok Image.empty
  else
    let res := reader.readHeader BMPHeader.init
    let header := res.2.1
    if res.1 ≠ 54 then
      .ok Image.empty
    else if header.bfType ≠ 0x4D42 ∨ header.biBitCount ≠ 24 then
      .ok Image.empty
    else
      let width := header.biWidth
      let height := iabs header.biHeight
      let rowSize := BMPHeader.rowSize width
      (Image.create width height (Color.gray 1)).bind fun image =>
      (newRowData rowSize).bind fun rowData =>
      loadRows header.biHeight width height rowSize height.toNat 0 rowData res.2.2 image

/-! ## Vocabulary of the statements -/

/-- The row stride of a width in unbounded integers: for a width `w ≥ 0` the least
multiple of 4 that is at least `3 * w`. -/
def rowStride (w : Int) : Int := (3 * w + 3) / 4 * 4

/-- The pixel of an image at memory row `r` and column `x`, read directly in the
pixel vector (black outside it). -/
def Image.px (image : Image) (r x : Int) : Color :=
  image.m_pixels.getD (r * image.m_width + x).toNat (Color.gray 0)

/-- The three bytes stored for a pixel: quantized blue, green, red. -/
def pixelBytes (c : Color) : List Byte := [quantize c.b, quantize c.g, quantize c.r]

/-- The bytes of one stored row taken from memory row `r` of the image: the pixels
from left to right, then zero bytes up to the row stride. -/
def rowBytes (image : Image) (r : Int) : List Byte :=
  ((List.range image.m_width.toNat).flatMap fun x => pixelBytes (image.px r x))
    ++ List.replicate (rowStride image.m_width - 3 * image.m_width).toNat 0

/-- The pixel data of the file of an image: the stored rows, the last memory row
first. -/
def pixelData (image : Image) : List Byte :=
  (List.range image.m_height.toNat).flatMap fun y => rowBytes image (image.m_height - 1 - y)

/-- The file of an image: the header record, then the pixel data. -/
def fileBytes (image : Image) : List Byte :=
  (BMPHeader.Make image.m_width image.m_height).toBytes ++ pixelData image

/-- The colour decoded from the three bytes at offset `o` of a byte sequence: blue
first, then green, then red, each divided by 255. -/
def colorAt (bs : List Byte) (o : Nat) : Color :=
  ⟨(byteAt bs (o + 2) : ℚ) / 255, (byteAt bs (o + 1) : ℚ) / 255, (byteAt bs o : ℚ) / 255⟩

/-- The memory row in which `LoadBMP` stores the stored row `y` of a file whose
height field is `biHeight`, for an image of `height` rows. -/
def memRow (biHeight height y : Int) : Int :=
  if 0 < biHeight then height - 1 - y else y

/-! ## Sample inputs -/

/-- A 2 by 2 image with channels inside and outside `[0, 1]`. -/
def sampleImage : Image :=
  ⟨[⟨1, 1 / 2, 0⟩, ⟨0, 0, 1⟩, ⟨1 / 3, 2, -1⟩, ⟨1, 1, 1⟩], 2, 2⟩

/-- A 2 by 2 image with all channels in `[0, 1]`. -/
def sampleInRange : Image :=
  ⟨[⟨1, 1 / 2, 0⟩, ⟨0, 0, 1⟩, ⟨1 / 3, 1 / 7, 1⟩, ⟨1, 1, 1⟩], 2, 2⟩

/-- A source of 54 zero bytes. -/
def zeroSource : List Byte := List.replicate 54 0

/-- A 1 by 1 file whose compression field (offset 30) is 1; its pixel bytes are
blue 255, green 0, red 51. -/
def compressedSource : List Byte :=
  [0x42, 0x4D, 58, 0, 0, 0, 0, 0, 0, 0, 54, 0, 0, 0,
   40, 0, 0, 0, 1, 0, 0, 0, 1, 0, 0, 0, 1, 0, 24, 0, 1, 0, 0, 0, 4, 0, 0, 0,
   0, 0, 0, 0, 0, 0, 0, 0, 0, 0, 0, 0, 0, 0, 0, 0,
   255, 0, 51, 0]

/-- A header alone, with width -3 and height 1. -/
def negativeWidthSource : List Byte :=
  [0x42, 0x4D, 54, 0, 0, 0, 0, 0, 0, 0, 54, 0, 0, 0,
   40, 0, 0, 0, 0xFD, 0xFF, 0xFF, 0xFF, 1, 0, 0, 0, 1, 0, 24, 0, 0, 0, 0, 0, 0, 0, 0, 0,
   0, 0, 0, 0, 0, 0, 0, 0, 0, 0, 0, 0, 0, 0, 0, 0]

/-- A header alone, with width 65536 and height 32768, whose product is `2^31`. -/
def overflowHeader : List Byte :=
  [0x42, 0x4D, 54, 0, 0, 0, 0, 0, 0, 0, 54, 0, 0, 0,
   40, 0, 0, 0, 0, 0, 1, 0, 0, 0x80, 0, 0, 1, 0, 24, 0, 0, 0, 0, 0, 0, 0, 0, 0,
   0, 0, 0, 0, 0, 0, 0, 0, 0, 0, 0, 0, 0, 0, 0, 0]

/-- A file with the header of width 65536 and height 32768 followed by all its
`196608 * 32768` bytes of pixel data, all zero. -/
def overflowSource : List Byte := overflowHeader ++ List.replicate 6442450944 0

/-- An image of width 715827882 and height 1, all black: `3 * width + 3` exceeds
the `int` range. -/
def wideImage : Image := ⟨List.replicate 715827882 (Color.gray 0), 715827882, 1⟩

/-- A top-down file of width 2 and height field -3, with three stored rows of 8
bytes. -/
def topDownSource : List Byte :=
  [0x42, 0x4D, 78, 0, 0, 0, 0, 0, 0, 0, 54, 0, 0, 0,
   40, 0, 0, 0, 2, 0, 0, 0, 0xFD, 0xFF, 0xFF, 0xFF, 1, 0, 24, 0, 0, 0, 0, 0, 24, 0, 0, 0,
   0, 0, 0, 0, 0, 0, 0, 0, 0, 0, 0, 0, 0, 0, 0, 0,
   1, 2, 3, 4, 5, 6, 0, 0,
   11, 12, 13, 14, 15, 16, 0, 0,
   21, 22, 23, 24, 25, 26, 0, 0]

/-- A file of width 2 and height 2 that ends in the middle of its second stored
row. -/
def truncatedSource : List Byte :=
  [0x42, 0x4D, 70, 0, 0, 0, 0, 0, 0, 0, 54, 0, 0, 0,
   40, 0, 0, 0, 2, 0, 0, 0, 2, 0, 0, 0, 1, 0, 24, 0, 0, 0, 0, 0, 16, 0, 0, 0,
   0, 0, 0, 0, 0, 0, 0, 0, 0, 0, 0, 0, 0, 0, 0, 0,
   1, 2, 3, 4, 5, 6, 0, 0,
   11, 12]

/-! ## Image.hpp, continued -/

/-- The constructor `Image(int width, int height)` with the fill colour omitted: the
default argument is `Color{ 1.0 }`. -/
def Image.create2 (width height : Int) : Except Fault Image :=
  Image.create width height (Color.gray 1)

/-- A `std::span<Color>` over the pixel vector: the offset of its first element and
its number of elements. -/
structure Span where
  start : Int
  extent : Int
  deriving DecidableEq

/-- The member `row(y)`: after the `assert` on `y`, the span that starts at
`&m_pixels[y * m_width]` and has `m_width` elements. As in `rowPtr`, taking the
address is the offset computation; each element access through the span is checked
in `spanGet`. -/
def Image.row (image : Image) (y : Int) : Except Fault Span :=
  if 0 ≤ y ∧ y < image.m_height then
    .ok ⟨imul y image.m_width, image.m_width⟩
  else .error .assertion

/-- Reading element `x` of a span over the pixel vector of an image. -/
def Image.spanGet (image : Image) (s : Span) (x : Int) : Except Fault Color :=
  if 0 ≤ x ∧ x < s.extent then image.pixelAt (s.start + x) else .error .outOfRange

/-! ## Point.hpp -/

/-- The class `Point`: two `int` components. -/
structure Point where
  x : Int
  y : Int
  deriving DecidableEq

/-- Reduction of an integer to the range of a 64-bit two's-complement integer. -/
def wrap64 (v : Int) : Int :=
  (v + 9223372036854775808) % 18446744073709551616 - 9223372036854775808

/-- The member `manhattanDistance()`: each component is negated in `int` when it is
negative, then widened to `std::int64_t`; the sum is taken in 64 bits. -/
def Point.manhattanDistance (p : Point) : Int :=
  let x_ : Int := if p.x < 0 then wrap32 (-p.x) else p.x
  let y_ : Int := if p.y < 0 then wrap32 (-p.y) else p.y
  wrap64 (x_ + y_)

/-! ## More sample inputs -/

/-- An image of width 2 and height 1. -/
def sample2x1 : Image := ⟨[⟨1, 0, 0⟩, ⟨0, 0, 1⟩], 2, 1⟩

/-- An image of width 1 and height 1. -/
def sample1x1 : Image := ⟨[⟨1, 1 / 2, 0⟩], 1, 1⟩

/-- An image of width 1 and height 2. -/
def sample1x2 : Image := ⟨[⟨1, 1 / 2, 0⟩, ⟨0, 1, 1 / 4⟩], 1, 2⟩

/-- A 1 by 1 file with the magic, width, height, bit count and pixel bytes of
`compressedSource` and other values in every other header field. -/
def otherFieldsSource : List Byte :=
  [0x42, 0x4D, 1, 2, 3, 4, 5, 6, 7, 8, 9, 10, 11, 12,
   13, 14, 15, 16, 1, 0, 0, 0, 1, 0, 0, 0, 17, 18, 24, 0, 19, 20, 21, 22, 23, 24, 25, 26,
   27, 28, 29, 30, 31, 32, 33, 34, 35, 36, 37, 38, 39, 40, 41, 42,
   255, 0, 51, 0]

/-- The 54 bytes of the header of an image of width 0 and height 0. -/
def emptyFile : List Byte :=
  [0x42, 0x4D, 54, 0, 0, 0, 0, 0, 0, 0, 54, 0, 0, 0,
   40, 0, 0, 0, 0, 0, 0, 0, 0, 0, 0, 0, 1, 0, 24, 0, 0, 0, 0, 0, 0, 0, 0, 0,
   0, 0, 0, 0, 0, 0, 0, 0, 0, 0, 0, 0, 0, 0, 0, 0]

/-! ## Basic facts about the machine model -/

theorem bind_ok {α β : Type} (a : α) (f : α → Except Fault β) :
    (Except.ok a : Except Fault α).bind f = f a := rfl

theorem bind_error {α β : Type} (e : Fault) (f : α → Except Fault β) :
    (Except.error e : Except Fault α).bind f = Except.error e := rfl

theorem wrap32_of_range (x : Int) (h0 : -2147483648 ≤ x) (h1 : x < 2147483648) :
    wrap32 x = x := by
  unfold wrap32
  omega

theorem byteOfInt_val_of_range (t : Int) (h0 : 0 ≤ t) (h1 : t ≤ 255) :
    ((byteOfInt t).val : Int) = t := by
  unfold byteOfInt
  simp only []
  omega

theorem byteAt_lt (bs : List Byte) (i : Nat) : byteAt bs i < 256 := by
  unfold byteAt
  exact (bs.getD i 0).isLt

theorem byteAt_take (bs : List Byte) (n i : Nat) (h : i < n) :
    byteAt (bs.take n) i = byteAt bs i := by
  unfold byteAt
  simp [List.getD_eq_getElem?_getD, List.getElem?_take, h]

theorem byteAt_eq_of_getElem? (bs : List Byte) (i : Nat) (b : Byte) (h : bs[i]? = some b) :
    byteAt bs i = b.val := by
  unfold byteAt
  simp [List.getD_eq_getElem?_getD, h]

theorem toBytes_length (h : BMPHeader) : h.toBytes.length = 54 := by
  simp [BMPHeader.toBytes, le16, le32, le32s]

/-! ## Quantization -/

theorem clamp_range (v : ℚ) : 0 ≤ clamp v 0 255 ∧ clamp v 0 255 ≤ 255 := by
  unfold clamp
  split_ifs with h1 h2
  · constructor <;> norm_num
  · constructor <;> norm_num
  · push_neg at h1 h2
    exact ⟨h1, h2⟩

theorem toUInt8_val_of_range (v : ℚ) (h0 : 0 ≤ v) (h1 : v ≤ 255) :
    ((toUInt8 v).val : Int) = ⌊v⌋ := by
  unfold toUInt8
  rw [if_pos h0]
  apply byteOfInt_val_of_range
  · exact Int.floor_nonneg.mpr h0
  · have : ⌊v⌋ ≤ ⌊(255 : ℚ)⌋ := Int.floor_le_floor h1
    simpa using this

theorem quantize_val (c : ℚ) :
    ((quantize c).val : Int) = ⌊clamp (c * 255 + 1 / 2) 0 255⌋ := by
  unfold quantize
  exact toUInt8_val_of_range _ (clamp_range _).1 (clamp_range _).2

theorem floor_clamp_eq (c : ℚ) :
    ⌊clamp (c * 255 + 1 / 2) 0 255⌋ = ⌊clamp c 0 1 * 255 + 1 / 2⌋ := by
  unfold clamp
  by_cases h0 : c * 255 + 1 / 2 < 0
  · have hc : c < 0 := by linarith
    rw [if_pos h0, if_pos hc]
    norm_num
  · rw [if_neg h0]
    by_cases h1 : (255 : ℚ) < c * 255 + 1 / 2
    · rw [if_pos h1]
      have hc0 : ¬ c < 0 := by
        intro h; linarith
      rw [if_neg hc0]
      by_cases hc1 : (1 : ℚ) < c
      · rw [if_pos hc1]; norm_num
      · rw [if_neg hc1]
        push_neg at hc1
        symm
        rw [Int.floor_eq_iff]
        constructor
        · linarith
        · linarith
    · rw [if_neg h1]
      push_neg at h0 h1
      have hc1 : ¬ (1 : ℚ) < c := by
        intro h; linarith
      by_cases hc0 : c < 0
      · rw [if_pos hc0]
        have hfl : ⌊c * 255 + 1 / 2⌋ = 0 := by
          rw [Int.floor_eq_iff]
          constructor
          · simpa using h0
          · simp only [Int.cast_zero]; linarith
        rw [hfl]
        norm_num
      · rw [if_neg hc0, if_neg hc1]

/-- Claim C4. The byte `SaveBMP` stores for a channel `c` is
`floor(clamp(c, 0, 1) * 255 + 1/2)`: scaling, adding one half, clamping to
`[0, 255]` and truncating gives the same byte as clamping first and rounding with
ties up; it is 0 for every `c ≤ 0` and 255 for every `c ≥ 1`. -/
theorem quantize_eq_quantizeSpec (c : ℚ) :
    ((quantize c).val : Int) = quantizeSpec c
      ∧ (c ≤ 0 → (quantize c).val = 0) ∧ (1 ≤ c → (quantize c).val = 255) := by
  have key : ((quantize c).val : Int) = quantizeSpec c := by
    rw [quantize_val, floor_clamp_eq]; rfl
  refine ⟨key, ?_, ?_⟩
  · intro hc
    have : quantizeSpec c = 0 := by
      unfold quantizeSpec clamp
      by_cases h : c < 0
      · rw [if_pos h]; norm_num
      · have : c = 0 := le_antisymm hc (not_lt.mp h)
        subst this
        norm_num
    rw [this] at key
    exact_mod_cast key
  · intro hc
    have : quantizeSpec c = 255 := by
      unfold quantizeSpec clamp
      have h0 : ¬ c < 0 := by intro h; linarith
      rw [if_neg h0]
      by_cases h : (1:ℚ) < c
      · rw [if_pos h]; norm_num
      · have : c = 1 := le_antisymm (not_lt.mp h) hc
        subst this
        norm_num
    rw [this] at key
    exact_mod_cast key

/-! ## The header read by `LoadBMP` -/

theorem readHeader_fst (bs : List Byte) (h : BMPHeader) :
    ((BinaryFileReader.ofBytes bs).readHeader h).1 = ((min 54 bs.length : Nat) : Int) := by
  simp [BinaryFileReader.readHeader, BinaryFileReader.read, BinaryFileReader.ofBytes]

theorem readHeader_snd (bs : List Byte) (h : BMPHeader) (hlen : 54 ≤ bs.length) :
    ((BinaryFileReader.ofBytes bs).readHeader h).2
      = (BMPHeader.ofBytes (bs.take 54), ⟨true, bs.drop 54⟩) := by
  have hd : List.drop 54 h.toBytes = [] := by
    rw [List.drop_eq_nil_iff]
    simp [toBytes_length]
  simp [BinaryFileReader.readHeader, BinaryFileReader.read, BinaryFileReader.ofBytes, hlen, hd]

theorem ofBytes_take (bs : List Byte) :
    BMPHeader.ofBytes (bs.take 54) = BMPHeader.ofBytes bs := by
  simp [BMPHeader.ofBytes, u16At, u32At, i32At, byteAt_take]

/-- The function `LoadBMP` on a file of at least 54 bytes, with the header fields
read at their offsets. -/
theorem LoadBMP_ofBytes (bs : List Byte) (hlen : 54 ≤ bs.length) :
    LoadBMP (.ofBytes bs) =
      if u16At bs 0 ≠ 0x4D42 ∨ u16At bs 28 ≠ 24 then .ok Image.empty
      else
        (Image.create (i32At bs 18) (iabs (i32At bs 22)) (Color.gray 1)).bind fun image =>
        (newRowData (BMPHeader.rowSize (i32At bs 18))).bind fun rowData =>
        loadRows (i32At bs 22) (i32At bs 18) (iabs (i32At bs 22))
          (BMPHeader.rowSize (i32At bs 18)) (iabs (i32At bs 22)).toNat 0 rowData
          ⟨true, bs.drop 54⟩ image := by
  unfold LoadBMP
  have h1 : ((BinaryFileReader.ofBytes bs).readHeader BMPHeader.init).1 = 54 := by
    rw [readHeader_fst]; simp [hlen]
  simp only [h1, readHeader_snd bs _ hlen, ofBytes_take]
  simp [BinaryFileReader.ofBytes, BMPHeader.ofBytes]

/-- Claim C6. A byte source shorter than 54 bytes, or whose first two bytes are not
`0x42, 0x4D`, or whose 16-bit little-endian field at offset 28 is not 24, is decoded
by `LoadBMP` to the empty buffer: width 0, height 0, no pixels. -/
theorem LoadBMP_rejects (bs : List Byte)
    (h : bs.length < 54 ∨ ¬ (bs[0]? = some 0x42 ∧ bs[1]? = some 0x4D) ∨ u16At bs 28 ≠ 24) :
    LoadBMP (.ofBytes bs) = .ok ⟨[], 0, 0⟩ := by
  by_cases hlen : bs.length < 54
  · unfold LoadBMP
    have h1 : ((BinaryFileReader.ofBytes bs).readHeader BMPHeader.init).1 ≠ 54 := by
      rw [readHeader_fst]
      have : min 54 bs.length = bs.length := by omega
      rw [this]
      omega
    simp only [BinaryFileReader.ofBytes] at h1 ⊢
    simp [h1, Image.empty]
  · have hlen2 : 54 ≤ bs.length := by omega
    rw [LoadBMP_ofBytes bs hlen2]
    have hbad : u16At bs 0 ≠ 0x4D42 ∨ u16At bs 28 ≠ 24 := by
      rcases h with h | h | h
      · exact absurd h hlen
      · left
        intro hm
        apply h
        have h0 : 0 < bs.length := by omega
        have h1 : 1 < bs.length := by omega
        have e0 := byteAt_eq_of_getElem? bs 0 bs[0] (List.getElem?_eq_getElem h0)
        have e1 := byteAt_eq_of_getElem? bs 1 bs[1] (List.getElem?_eq_getElem h1)
        have l0 := (bs[0]).isLt
        have l1 := (bs[1]).isLt
        unfold u16At at hm
        rw [e0, e1] at hm
        rw [List.getElem?_eq_getElem h0, List.getElem?_eq_getElem h1]
        constructor
        · congr 1
          apply Fin.ext
          show (bs[0]).val = 66
          omega
        · congr 1
          apply Fin.ext
          show (bs[1]).val = 77
          omega
      · right; exact h
    rw [if_pos hbad]
    rfl

/-! ## Arithmetic of rows -/

theorem rowStride_bounds (w : Int) : 3 * w ≤ rowStride w ∧ rowStride w < 3 * w + 4 := by
  unfold rowStride
  omega

theorem rowSize_eq (w : Int) (h0 : 0 ≤ w) (hW : 3 * w + 3 < 2147483648) :
    BMPHeader.rowSize w = rowStride w := by
  unfold BMPHeader.rowSize imul iadd idiv rowStride
  rw [wrap32_of_range (w * 3) (by omega) (by omega)]
  rw [wrap32_of_range (w * 3 + 3) (by omega) (by omega)]
  rw [Int.tdiv_eq_ediv (by omega : (0 : Int) ≤ w * 3 + 3) (by omega : (0 : Int) ≤ 4)]
  rw [wrap32_of_range ((w * 3 + 3) / 4) (by omega) (by omega)]
  rw [wrap32_of_range ((w * 3 + 3) / 4 * 4) (by omega) (by omega)]
  omega

theorem index_bounds (r x w h : Int) (hr0 : 0 ≤ r) (hr : r < h) (hx0 : 0 ≤ x) (hx : x < w) :
    0 ≤ r * w ∧ r * w + x < w * h := by
  have hw0 : 0 ≤ w := by omega
  have h1 : 0 ≤ r * w := Int.mul_nonneg hr0 hw0
  have h2 : (r + 1) * w ≤ h * w := Int.mul_le_mul_of_nonneg_right (by omega) hw0
  have h3 : (r + 1) * w = r * w + w := by ring
  have h4 : h * w = w * h := Int.mul_comm h w
  omega

/-! ## Reading and writing pixels of a well-formed image -/

theorem rowPtr_ok (image : Image) (hw0 : 0 ≤ image.m_width)
    (hov : image.m_width * image.m_height < 2147483648) (r : Int) (hr0 : 0 ≤ r)
    (hr : r < image.m_height) :
    image.rowPtr r = .ok (r * image.m_width) := by
  unfold Image.rowPtr imul
  rw [if_pos ⟨hr0, hr⟩]
  have h1 : 0 ≤ r * image.m_width := Int.mul_nonneg hr0 hw0
  have h2 : r * image.m_width ≤ image.m_height * image.m_width :=
    Int.mul_le_mul_of_nonneg_right (by omega) hw0
  have h3 : image.m_height * image.m_width = image.m_width * image.m_height :=
    Int.mul_comm _ _
  rw [wrap32_of_range _ (by omega) (by omega)]

theorem readRow_ok (image : Image) (hwf : image.WF)
    (hov : image.m_width * image.m_height < 2147483648) (r x : Int) (hr0 : 0 ≤ r)
    (hr : r < image.m_height) (hx0 : 0 ≤ x) (hx : x < image.m_width) :
    image.readRow r x = .ok (image.px r x) := by
  obtain ⟨hw0, -, hlen⟩ := hwf
  unfold Image.readRow
  rw [rowPtr_ok image hw0 hov r hr0 hr, bind_ok]
  have hi := index_bounds r x image.m_width image.m_height hr0 hr hx0 hx
  unfold Image.pixelAt Image.px
  rw [if_pos (by omega)]
  have hlt : (r * image.m_width + x).toNat < image.m_pixels.length := by omega
  rw [List.getElem?_eq_getElem hlt, List.getD_eq_getElem?_getD, List.getElem?_eq_getElem hlt]
  rfl

theorem writeRow_ok (image : Image) (hwf : image.WF)
    (hov : image.m_width * image.m_height < 2147483648) (r x : Int) (hr0 : 0 ≤ r)
    (hr : r < image.m_height) (hx0 : 0 ≤ x) (hx : x < image.m_width) (c : Color) :
    image.writeRow r x c =
      .ok { image with m_pixels := image.m_pixels.set (r * image.m_width + x).toNat c } := by
  obtain ⟨hw0, -, hlen⟩ := hwf
  unfold Image.writeRow
  rw [rowPtr_ok image hw0 hov r hr0 hr, bind_ok]
  have hi := index_bounds r x image.m_width image.m_height hr0 hr hx0 hx
  unfold Image.setPixelAt
  rw [if_pos (by omega)]

/-! ## The loops of `SaveBMP` -/

theorem rowSet_ok (rowData : List Byte) (i : Int) (v : Byte) (h0 : 0 ≤ i)
    (h : i < rowData.length) :
    rowSet rowData i v = .ok (rowData.set i.toNat v) := by
  unfold rowSet
  rw [if_pos ⟨h0, h⟩]

theorem rowGet_ok (rowData : List Byte) (i : Int) (h0 : 0 ≤ i) (h : i < rowData.length) :
    rowGet rowData i = .ok (rowData.getD i.toNat 0) := by
  unfold rowGet
  rw [if_pos h0]
  have hlt : i.toNat < rowData.length := by omega
  rw [List.getElem?_eq_getElem hlt, List.getD_eq_getElem?_getD, List.getElem?_eq_getElem hlt]
  rfl

theorem x3_add (x k : Int) (hx0 : 0 ≤ x) (hx : 3 * x + 3 < 2147483648) (hk0 : 0 ≤ k)
    (hk : k < 3) : iadd (imul x 3) k = 3 * x + k := by
  unfold iadd imul
  rw [wrap32_of_range (x * 3) (by omega) (by omega)]
  rw [wrap32_of_range _ (by omega) (by omega)]
  omega

theorem flip_row (h y : Int) (hy0 : 0 ≤ y) (hy : y < h) (hh : h < 2147483648) :
    isub (isub h 1) y = h - 1 - y := by
  unfold isub
  rw [wrap32_of_range (h - 1) (by omega) (by omega)]
  rw [wrap32_of_range _ (by omega) (by omega)]

theorem savePixel_ok (image : Image) (hwf : image.WF)
    (hov : image.m_width * image.m_height < 2147483648)
    (hW : 3 * image.m_width + 3 < 2147483648)
    (y x : Int) (hy0 : 0 ≤ y) (hy : y < image.m_height) (hx0 : 0 ≤ x)
    (hx : x < image.m_width) (rowData : List Byte)
    (hrd : 3 * image.m_width ≤ rowData.length) :
    savePixel image image.m_height y x rowData =
      .ok (((rowData.set (3 * x).toNat (quantize (image.px (image.m_height - 1 - y) x).b)).set
        (3 * x + 1).toNat (quantize (image.px (image.m_height - 1 - y) x).g)).set
        (3 * x + 2).toNat (quantize (image.px (image.m_height - 1 - y) x).r)) := by
  have hH : image.m_height < 2147483648 := by
    have h1 : 1 * image.m_height ≤ image.m_width * image.m_height :=
      Int.mul_le_mul_of_nonneg_right (by omega) (by omega)
    omega
  unfold savePixel
  rw [flip_row _ y hy0 hy hH]
  rw [readRow_ok image hwf hov (image.m_height - 1 - y) x (by omega) (by omega) hx0 hx, bind_ok]
  rw [x3_add x 0 hx0 (by omega) (by omega) (by omega)]
  rw [x3_add x 1 hx0 (by omega) (by omega) (by omega)]
  rw [x3_add x 2 hx0 (by omega) (by omega) (by omega)]
  rw [rowSet_ok _ _ _ (by omega) (by omega), bind_ok]
  rw [rowSet_ok _ _ _ (by omega) (by rw [List.length_set]; omega), bind_ok]
  rw [rowSet_ok _ _ _ (by omega) (by rw [List.length_set, List.length_set]; omega)]
  rw [Int.add_zero]

theorem set3_append {α : Type} (p : List α) (a b c x y z : α) (t : List α) (i : Nat)
    (hi : i = p.length) :
    (((p ++ a :: b :: c :: t).set i x).set (i + 1) y).set (i + 2) z
      = p ++ x :: y :: z :: t := by
  subst hi
  induction p with
  | nil => rfl
  | cons d p ih => simp

theorem range_succ_flatMap {α : Type} (n : Nat) (f : Nat → List α) :
    (List.range (n + 1)).flatMap f = f 0 ++ (List.range n).flatMap fun i => f (i + 1) := by
  rw [List.range_succ_eq_map]
  simp [List.flatMap, List.map_map, Function.comp_def]

theorem range_flatMap_succ {α : Type} (n : Nat) (f : Nat → List α) :
    (List.range (n + 1)).flatMap f = (List.range n).flatMap f ++ f n := by
  rw [List.range_succ]
  simp [List.flatMap]

theorem saveRowPixels_ok (image : Image) (hwf : image.WF)
    (hov : image.m_width * image.m_height < 2147483648)
    (hW : 3 * image.m_width + 3 < 2147483648)
    (y : Int) (hy0 : 0 ≤ y) (hy : y < image.m_height) (n : Nat) :
    ∀ (x : Int) (p q : List Byte), 0 ≤ x → x + n ≤ image.m_width →
      (p.length : Int) = 3 * x → 3 * (image.m_width - x) ≤ (q.length : Int) →
      saveRowPixels image image.m_height y n x (p ++ q) =
        .ok (p ++ ((List.range n).flatMap fun i =>
            pixelBytes (image.px (image.m_height - 1 - y) (x + i))) ++ q.drop (3 * n)) := by
  induction n with
  | zero =>
    intro x p q _ _ _ _
    simp [saveRowPixels]
  | succ n ih =>
    intro x p q hx0 hxn hp hq
    have hxw : x < image.m_width := by omega
    unfold saveRowPixels
    rw [savePixel_ok image hwf hov hW y x hy0 hy hx0 hxw (p ++ q)
      (by rw [List.length_append]; omega), bind_ok]
    match q, hq with
    | [], hq => simp at hq; omega
    | [_], hq => simp at hq; omega
    | [_, _], hq => simp at hq; omega
    | a :: b :: c :: t, hq =>
      have e0 : (3 * x).toNat = p.length := by omega
      have e1 : (3 * x + 1).toNat = p.length + 1 := by omega
      have e2 : (3 * x + 2).toNat = p.length + 2 := by omega
      rw [e0, e1, e2, set3_append p a b c _ _ _ t p.length rfl]
      have hstep := ih (x + 1)
        (p ++ [quantize (image.px (image.m_height - 1 - y) x).b,
          quantize (image.px (image.m_height - 1 - y) x).g,
          quantize (image.px (image.m_height - 1 - y) x).r]) t (by omega)
        (by push_cast at hxn; omega)
        (by rw [List.length_append]; simp only [List.length_cons, List.length_nil]; omega)
        (by simp only [List.length_cons] at hq; omega)
      have hl : p ++ quantize (image.px (image.m_height - 1 - y) x).b ::
          quantize (image.px (image.m_height - 1 - y) x).g ::
          quantize (image.px (image.m_height - 1 - y) x).r :: t
          = (p ++ [quantize (image.px (image.m_height - 1 - y) x).b,
          quantize (image.px (image.m_height - 1 - y) x).g,
          quantize (image.px (image.m_height - 1 - y) x).r]) ++ t := by simp
      rw [hl, hstep, range_succ_flatMap]
      have hfun : (fun i : Nat => pixelBytes (image.px (image.m_height - 1 - y) (x + 1 + (i : Int))))
          = fun i : Nat => pixelBytes (image.px (image.m_height - 1 - y) (x + ((i + 1 : Nat) : Int))) := by
        funext i
        congr 2
        push_cast
        ring
      rw [hfun]
      have hd : List.drop (3 * (n + 1)) (a :: b :: c :: t) = List.drop (3 * n) t := by
        have : 3 * (n + 1) = 3 * n + 3 := by ring
        rw [this]
        rfl
      rw [hd]
      simp [pixelBytes]

theorem length_range_flatMap {α : Type} (n L : Nat) (f : Nat → List α)
    (hf : ∀ i, (f i).length = L) : ((List.range n).flatMap f).length = n * L := by
  induction n with
  | zero => simp
  | succ n ih =>
    rw [range_flatMap_succ, List.length_append, ih, hf]
    ring

theorem pixels_length (image : Image) (r : Int) (n : Nat) :
    ((List.range n).flatMap fun x => pixelBytes (image.px r x)).length = n * 3 :=
  length_range_flatMap n 3 _ (fun _ => rfl)

theorem rowBytes_length (image : Image) (r : Int) (hw0 : 0 ≤ image.m_width) :
    (rowBytes image r).length = (rowStride image.m_width).toNat := by
  unfold rowBytes
  rw [List.length_append, pixels_length, List.length_replicate]
  have := rowStride_bounds image.m_width
  omega

theorem rowBytes_drop (image : Image) (r : Int) :
    (rowBytes image r).drop (3 * image.m_width.toNat)
      = List.replicate (rowStride image.m_width - 3 * image.m_width).toNat 0 := by
  unfold rowBytes
  apply List.drop_left'
  rw [pixels_length]
  ring

theorem write_ok (room : Nat) (out data : List Byte) (h : data.length ≤ room) :
    (BinaryFileWriter.mk true true room out).write data
      = ⟨true, true, room - data.length, out ++ data⟩ := by
  unfold BinaryFileWriter.write
  simp [h]

theorem saveRows_ok (image : Image) (hwf : image.WF)
    (hov : image.m_width * image.m_height < 2147483648)
    (hW : 3 * image.m_width + 3 < 2147483648) (n : Nat) :
    ∀ (y : Int) (rowData : List Byte) (room : Nat) (out : List Byte), 0 ≤ y →
      y + n ≤ image.m_height →
      rowData.length = (rowStride image.m_width).toNat →
      rowData.drop (3 * image.m_width.toNat)
        = List.replicate (rowStride image.m_width - 3 * image.m_width).toNat 0 →
      n * (rowStride image.m_width).toNat ≤ room →
      saveRows image image.m_width image.m_height (rowStride image.m_width) n y rowData
          ⟨true, true, room, out⟩ =
        .ok ⟨true, true, room - n * (rowStride image.m_width).toNat,
          out ++ (List.range n).flatMap fun i =>
            rowBytes image (image.m_height - 1 - (y + i))⟩ := by
  have hw0 : 0 ≤ image.m_width := hwf.1
  have hsb := rowStride_bounds image.m_width
  induction n with
  | zero =>
    intro y rowData room out _ _ _ _ _
    simp [saveRows]
  | succ n ih =>
    intro y rowData room out hy0 hyn hlen hpad hroom
    unfold saveRows
    have hinner := saveRowPixels_ok image hwf hov hW y hy0 (by omega) image.m_width.toNat
      0 [] rowData (by omega) (by omega) (by simp) (by omega)
    rw [List.nil_append] at hinner
    rw [hinner, bind_ok]
    have hrow : ([] ++ ((List.range image.m_width.toNat).flatMap fun i : Nat =>
        pixelBytes (image.px (image.m_height - 1 - y) (0 + (i : Int))))
          ++ List.drop (3 * image.m_width.toNat) rowData)
        = rowBytes image (image.m_height - 1 - y) := by
      rw [hpad]
      unfold rowBytes
      simp
    rw [hrow]
    have hl := rowBytes_length image (image.m_height - 1 - y) hw0
    rw [List.take_of_length_le (by omega)]
    have hsucc : (n + 1) * (rowStride image.m_width).toNat
        = n * (rowStride image.m_width).toNat + (rowStride image.m_width).toNat := by ring
    rw [write_ok room out _ (by omega)]
    rw [ih (y + 1) _ _ _ (by omega) (by push_cast at hyn; omega) hl
      (rowBytes_drop image _) (by omega)]
    rw [range_succ_flatMap, hl]
    have hfun : (fun i : Nat => rowBytes image (image.m_height - 1 - (y + 1 + (i : Int))))
        = fun i : Nat => rowBytes image (image.m_height - 1 - (y + ((i + 1 : Nat) : Int))) := by
      funext i
      congr 1
      push_cast
      ring
    rw [hfun]
    have hroom2 : room - (rowStride image.m_width).toNat - n * (rowStride image.m_width).toNat
        = room - (n + 1) * (rowStride image.m_width).toNat := by omega
    rw [hroom2]
    simp

/-- The function `SaveBMP` on a well-formed image whose sizes fit in `int`, with a
writer that can take the whole file: it returns `true` having written the header
record and the stored rows. -/
theorem SaveBMP_ok (image : Image) (hwf : image.WF)
    (hW : 3 * image.m_width + 3 < 2147483648)
    (hov : image.m_width * image.m_height < 2147483648) (room : Nat)
    (hroom : 54 + (rowStride image.m_width * image.m_height).toNat ≤ room) :
    SaveBMP image (.opened room) =
      .ok (true, ⟨true, true, room - (54 + (rowStride image.m_width * image.m_height).toNat),
        fileBytes image⟩) := by
  obtain ⟨hw0, hh0, hlen⟩ := hwf
  have hsb := rowStride_bounds image.m_width
  have hrs0 : 0 ≤ rowStride image.m_width := by omega
  have hmul : (rowStride image.m_width * image.m_height).toNat
      = image.m_height.toNat * (rowStride image.m_width).toNat := by
    have h1 : ((image.m_height.toNat * (rowStride image.m_width).toNat : Nat) : Int)
        = rowStride image.m_width * image.m_height := by
      push_cast
      rw [Int.toNat_of_nonneg hh0, Int.toNat_of_nonneg hrs0]
      ring
    have h2 : 0 ≤ rowStride image.m_width * image.m_height := Int.mul_nonneg hrs0 hh0
    omega
  unfold SaveBMP Image.width Image.height BinaryFileWriter.opened BinaryFileWriter.writeHeader
  simp only [Bool.not_true, Bool.false_eq_true, if_false]
  rw [rowSize_eq _ hw0 hW, write_ok room [] _ (by rw [toBytes_length]; omega)]
  unfold newRowData
  rw [if_neg (by omega), bind_ok]
  rw [saveRows_ok image ⟨hw0, hh0, hlen⟩ hov hW image.m_height.toNat 0 _ _ _ (by omega)
    (by omega) (by simp) (by
      rw [List.drop_replicate]
      congr 1
      omega) (by rw [toBytes_length]; omega), bind_ok]
  unfold fileBytes pixelData
  rw [toBytes_length, hmul]
  have hfun : (fun i : Nat => rowBytes image (image.m_height - 1 - (0 + (i : Int))))
      = fun i : Nat => rowBytes image (image.m_height - 1 - (i : Int)) := by
    funext i
    rw [Int.zero_add]
  rw [List.nil_append, Nat.sub_sub, hfun]

/-! ## Reading the written file at an offset -/

theorem getElem?_range_flatMap {α : Type} (n L : Nat) (f : Nat → List α)
    (hf : ∀ i, (f i).length = L) (i k : Nat) (hi : i < n) (hk : k < L) :
    ((List.range n).flatMap f)[i * L + k]? = (f i)[k]? := by
  induction n with
  | zero => omega
  | succ n ih =>
    rw [range_flatMap_succ]
    have hlen := length_range_flatMap n L f hf
    by_cases hin : i < n
    · have h1 : (i + 1) * L ≤ n * L := Nat.mul_le_mul_right L hin
      have h2 : (i + 1) * L = i * L + L := by ring
      rw [List.getElem?_append_left (by omega)]
      exact ih hin
    · have hieq : i = n := by omega
      subst hieq
      rw [List.getElem?_append_right (by omega), hlen]
      congr 1
      omega

theorem getPixel_ok (image : Image) (hwf : image.WF)
    (hov : image.m_width * image.m_height < 2147483648) (r x : Int) (hr0 : 0 ≤ r)
    (hr : r < image.m_height) (hx0 : 0 ≤ x) (hx : x < image.m_width) :
    image.getPixel r x = .ok (image.px r x) := by
  obtain ⟨hw0, hh0, hlen⟩ := hwf
  have hi := index_bounds r x image.m_width image.m_height hr0 hr hx0 hx
  unfold Image.getPixel Image.inBounds
  rw [decide_eq_true hr0, decide_eq_true hr, decide_eq_true hx0, decide_eq_true hx]
  simp only [Bool.and_self, Bool.not_true, Bool.false_eq_true, if_false]
  unfold iadd imul
  rw [wrap32_of_range (r * image.m_width) (by omega) (by omega)]
  rw [wrap32_of_range _ (by omega) (by omega)]
  unfold Image.pixelAt Image.px
  rw [if_pos (by omega)]
  have hlt : (r * image.m_width + x).toNat < image.m_pixels.length := by omega
  rw [List.getElem?_eq_getElem hlt, List.getD_eq_getElem?_getD, List.getElem?_eq_getElem hlt]
  rfl

theorem rowBytes_pixel (image : Image) (hw0 : 0 ≤ image.m_width) (r x : Int) (hx0 : 0 ≤ x)
    (hx : x < image.m_width) (k : Nat) (hk : k < 3) :
    (rowBytes image r)[(3 * x).toNat + k]? = (pixelBytes (image.px r x))[k]? := by
  unfold rowBytes
  have hpl := pixels_length image r image.m_width.toNat
  rw [List.getElem?_append_left (by omega)]
  have h3 : (3 * x).toNat = x.toNat * 3 := by omega
  rw [h3, getElem?_range_flatMap image.m_width.toNat 3
    (fun i : Nat => pixelBytes (image.px r (i : Int))) (fun _ => rfl) x.toNat k (by omega) hk]
  rw [Int.toNat_of_nonneg hx0]

theorem rowBytes_padding (image : Image) (hw0 : 0 ≤ image.m_width) (r : Int) (k : Nat)
    (hk0 : 3 * image.m_width ≤ k) (hk : k < rowStride image.m_width) :
    (rowBytes image r)[k]? = some 0 := by
  unfold rowBytes
  have hpl := pixels_length image r image.m_width.toNat
  rw [List.getElem?_append_right (by omega), List.getElem?_replicate, if_pos (by omega)]

theorem pixelData_length (image : Image) (hw0 : 0 ≤ image.m_width) :
    (pixelData image).length = image.m_height.toNat * (rowStride image.m_width).toNat :=
  length_range_flatMap _ _ _ (fun _ => rowBytes_length image _ hw0)

theorem fileBytes_length (image : Image) (hw0 : 0 ≤ image.m_width) :
    (fileBytes image).length = 54 + image.m_height.toNat * (rowStride image.m_width).toNat := by
  unfold fileBytes
  rw [List.length_append, toBytes_length, pixelData_length image hw0]

/-- The byte of the file of an image at offset `54 + y * rowStride + k` is byte `k`
of the stored row `y`, taken from memory row `height - 1 - y`. -/
theorem fileBytes_row (image : Image) (hw0 : 0 ≤ image.m_width) (y : Int) (hy0 : 0 ≤ y)
    (hy : y < image.m_height) (k : Nat) (hk : k < rowStride image.m_width) :
    (fileBytes image)[(54 + y * rowStride image.m_width).toNat + k]?
      = (rowBytes image (image.m_height - 1 - y))[k]? := by
  have hsb := rowStride_bounds image.m_width
  have hprod : 0 ≤ y * rowStride image.m_width := Int.mul_nonneg hy0 (by omega)
  have hidx : (54 + y * rowStride image.m_width).toNat + k
      = 54 + (y.toNat * (rowStride image.m_width).toNat + k) := by
    have h1 : ((y.toNat * (rowStride image.m_width).toNat : Nat) : Int)
        = y * rowStride image.m_width := by
      push_cast
      rw [Int.toNat_of_nonneg hy0, Int.toNat_of_nonneg (by omega)]
    omega
  unfold fileBytes pixelData
  rw [hidx, List.getElem?_append_right (by rw [toBytes_length]; omega), toBytes_length,
    Nat.add_sub_cancel_left]
  rw [getElem?_range_flatMap image.m_height.toNat (rowStride image.m_width).toNat _
    (fun _ => rowBytes_length image _ hw0) y.toNat k (by omega) (by omega)]
  rw [Int.toNat_of_nonneg hy0]

/-- Claim C2, amended by the `int` range of the sizes: for a buffer of width `w ≥ 1` and
height `h ≥ 1` with `3 * w + 3` and `w * h` below `2^31`, and every `0 ≤ y < h`,
`0 ≤ x < w`, the three bytes of the output of `SaveBMP` at offsets
`54 + y * rowStride + 3 * x + 0, 1, 2` are the quantized blue, green and red channels
of the pixel `getPixel (h - 1 - y) x` of the buffer. -/
theorem SaveBMP_pixel_layout (image : Image) (hwf : image.WF)
    (hw : 1 ≤ image.width) (hh : 1 ≤ image.height)
    (hW : 3 * image.width + 3 < 2147483648)
    (hov : image.width * image.height < 2147483648) (room : Nat)
    (hroom : 54 + (rowStride image.width * image.height).toNat ≤ room)
    (y x : Int) (hy0 : 0 ≤ y) (hy : y < image.height) (hx0 : 0 ≤ x) (hx : x < image.width) :
    ∃ wr c, SaveBMP image (.opened room) = .ok (true, wr)
      ∧ image.getPixel (image.height - 1 - y) x = .ok c
      ∧ wr.written[(54 + y * rowStride image.width + 3 * x).toNat]? = some (quantize c.b)
      ∧ wr.written[(54 + y * rowStride image.width + 3 * x + 1).toNat]? = some (quantize c.g)
      ∧ wr.written[(54 + y * rowStride image.width + 3 * x + 2).toNat]? = some (quantize c.r) := by
  unfold Image.width Image.height at *
  have _hh := hh
  have hw0 : 0 ≤ image.m_width := by omega
  have hsb := rowStride_bounds image.m_width
  have hprod : 0 ≤ y * rowStride image.m_width := Int.mul_nonneg hy0 (by omega)
  refine ⟨_, _, SaveBMP_ok image hwf hW hov room hroom,
    getPixel_ok image hwf hov _ x (by omega) (by omega) hx0 hx, ?_, ?_, ?_⟩
  · have e : (54 + y * rowStride image.m_width + 3 * x).toNat
        = (54 + y * rowStride image.m_width).toNat + ((3 * x).toNat + 0) := by omega
    show (fileBytes image)[_]? = _
    rw [e, fileBytes_row image hw0 y hy0 hy _ (by omega),
      rowBytes_pixel image hw0 _ x hx0 hx 0 (by omega)]
    rfl
  · have e : (54 + y * rowStride image.m_width + 3 * x + 1).toNat
        = (54 + y * rowStride image.m_width).toNat + ((3 * x).toNat + 1) := by omega
    show (fileBytes image)[_]? = _
    rw [e, fileBytes_row image hw0 y hy0 hy _ (by omega),
      rowBytes_pixel image hw0 _ x hx0 hx 1 (by omega)]
    rfl
  · have e : (54 + y * rowStride image.m_width + 3 * x + 2).toNat
        = (54 + y * rowStride image.m_width).toNat + ((3 * x).toNat + 2) := by omega
    show (fileBytes image)[_]? = _
    rw [e, fileBytes_row image hw0 y hy0 hy _ (by omega),
      rowBytes_pixel image hw0 _ x hx0 hx 2 (by omega)]
    rfl

/-! ## The header record as bytes -/

theorem byteOfInt_natCast_val (n : Nat) : (byteOfInt (n : Int)).val = n % 256 := by
  unfold byteOfInt
  simp only []
  omega

theorem u16At_le16 (n : Nat) (hn : n < 65536) (rest : List Byte) :
    u16At (le16 n ++ rest) 0 = n := by
  unfold u16At byteAt le16
  simp only [List.cons_append, List.nil_append, List.getD_cons_zero, List.getD_cons_succ,
    byteOfInt_natCast_val]
  have h2 : (byteOfInt ((n : Int) / 256)).val = n / 256 % 256 := by
    have := byteOfInt_natCast_val (n / 256)
    push_cast at this
    exact this
  rw [h2]
  omega

theorem u32At_le32 (n : Nat) (hn : n < 4294967296) (rest : List Byte) :
    u32At (le32 n ++ rest) 0 = n := by
  unfold u32At byteAt le32
  simp only [List.cons_append, List.nil_append, List.getD_cons_zero, List.getD_cons_succ,
    byteOfInt_natCast_val]
  have h2 : (byteOfInt ((n : Int) / 256)).val = n / 256 % 256 := by
    have := byteOfInt_natCast_val (n / 256)
    push_cast at this
    exact this
  have h3 : (byteOfInt ((n : Int) / 65536)).val = n / 65536 % 256 := by
    have := byteOfInt_natCast_val (n / 65536)
    push_cast at this
    exact this
  have h4 : (byteOfInt ((n : Int) / 16777216)).val = n / 16777216 % 256 := by
    have := byteOfInt_natCast_val (n / 16777216)
    push_cast at this
    exact this
  rw [h2, h3, h4]
  omega

theorem i32At_le32s (x : Int) (h0 : -2147483648 ≤ x) (h1 : x < 2147483648) (rest : List Byte) :
    i32At (le32s x ++ rest) 0 = x := by
  unfold i32At le32s
  rw [u32At_le32 _ (by omega)]
  unfold wrap32
  omega

theorem byteAt_append_right (p q : List Byte) (i : Nat) :
    byteAt (p ++ q) (p.length + i) = byteAt q i := by
  unfold byteAt
  rw [List.getD_eq_getElem?_getD, List.getD_eq_getElem?_getD,
    List.getElem?_append_right (by omega), Nat.add_sub_cancel_left]

theorem u16At_append_right (p q : List Byte) (i : Nat) :
    u16At (p ++ q) (p.length + i) = u16At q i := by
  unfold u16At
  rw [byteAt_append_right, Nat.add_assoc p.length i 1, byteAt_append_right]

theorem u32At_append_right (p q : List Byte) (i : Nat) :
    u32At (p ++ q) (p.length + i) = u32At q i := by
  unfold u32At
  rw [byteAt_append_right, Nat.add_assoc p.length i 1, byteAt_append_right,
    Nat.add_assoc p.length i 2, byteAt_append_right, Nat.add_assoc p.length i 3,
    byteAt_append_right]

theorem i32At_append_right (p q : List Byte) (i : Nat) :
    i32At (p ++ q) (p.length + i) = i32At q i := by
  unfold i32At
  rw [u32At_append_right]

theorem u16At_skip (p q : List Byte) (n i : Nat) (hp : p.length = n) :
    u16At (p ++ q) (n + i) = u16At q i := by
  subst hp
  exact u16At_append_right p q i

theorem u32At_skip (p q : List Byte) (n i : Nat) (hp : p.length = n) :
    u32At (p ++ q) (n + i) = u32At q i := by
  subst hp
  exact u32At_append_right p q i

theorem i32At_skip (p q : List Byte) (n i : Nat) (hp : p.length = n) :
    i32At (p ++ q) (n + i) = i32At q i := by
  subst hp
  exact i32At_append_right p q i

/-- The fields of the record `h` read back from its 54 bytes, whatever follows them,
when every field fits its width. -/
theorem ofBytes_toBytes (h : BMPHeader) (rest : List Byte)
    (h1 : h.bfType < 65536) (h2 : h.bfSize < 4294967296) (h3 : h.bfReserved1 < 65536)
    (h4 : h.bfReserved2 < 65536) (h5 : h.bfOffBits < 4294967296) (h6 : h.biSize < 4294967296)
    (h7 : -2147483648 ≤ h.biWidth ∧ h.biWidth < 2147483648)
    (h8 : -2147483648 ≤ h.biHeight ∧ h.biHeight < 2147483648)
    (h9 : h.biPlanes < 65536) (h10 : h.biBitCount < 65536)
    (h11 : h.biCompression < 4294967296) (h12 : h.biSizeImage < 4294967296)
    (h13 : -2147483648 ≤ h.biXPelsPerMeter ∧ h.biXPelsPerMeter < 2147483648)
    (h14 : -2147483648 ≤ h.biYPelsPerMeter ∧ h.biYPelsPerMeter < 2147483648)
    (h15 : h.biClrUsed < 4294967296) (h16 : h.biClrImportant < 4294967296) :
    BMPHeader.ofBytes (h.toBytes ++ rest) = h := by
  have a : ∀ (p q r : List Byte), p ++ q ++ r = p ++ (q ++ r) := List.append_assoc
  have e1 : u16At (h.toBytes ++ rest) 0 = h.bfType := by
    unfold BMPHeader.toBytes
    simp only [a]
    exact u16At_le16 _ h1 _
  have e2 : u32At (h.toBytes ++ rest) 2 = h.bfSize := by
    unfold BMPHeader.toBytes
    simp only [a]
    rw [show (2 : Nat) = 2 + 0 from rfl,
      u32At_skip (le16 h.bfType) _ 2 _ rfl]
    exact u32At_le32 _ h2 _
  have e3 : u16At (h.toBytes ++ rest) 6 = h.bfReserved1 := by
    unfold BMPHeader.toBytes
    simp only [a]
    rw [show (6 : Nat) = 2 + (4 + 0) from rfl,
      u16At_skip (le16 h.bfType) _ 2 _ rfl,
      u16At_skip (le32 h.bfSize) _ 4 _ rfl]
    exact u16At_le16 _ h3 _
  have e4 : u16At (h.toBytes ++ rest) 8 = h.bfReserved2 := by
    unfold BMPHeader.toBytes
    simp only [a]
    rw [show (8 : Nat) = 2 + (4 + (2 + 0)) from rfl,
      u16At_skip (le16 h.bfType) _ 2 _ rfl,
      u16At_skip (le32 h.bfSize) _ 4 _ rfl,
      u16At_skip (le16 h.bfReserved1) _ 2 _ rfl]
    exact u16At_le16 _ h4 _
  have e5 : u32At (h.toBytes ++ rest) 10 = h.bfOffBits := by
    unfold BMPHeader.toBytes
    simp only [a]
    rw [show (10 : Nat) = 2 + (4 + (2 + (2 + 0))) from rfl,
      u32At_skip (le16 h.bfType) _ 2 _ rfl,
      u32At_skip (le32 h.bfSize) _ 4 _ rfl,
      u32At_skip (le16 h.bfReserved1) _ 2 _ rfl,
      u32At_skip (le16 h.bfReserved2) _ 2 _ rfl]
    exact u32At_le32 _ h5 _
  have e6 : u32At (h.toBytes ++ rest) 14 = h.biSize := by
    unfold BMPHeader.toBytes
    simp only [a]
    rw [show (14 : Nat) = 2 + (4 + (2 + (2 + (4 + 0)))) from rfl,
      u32At_skip (le16 h.bfType) _ 2 _ rfl,
      u32At_skip (le32 h.bfSize) _ 4 _ rfl,
      u32At_skip (le16 h.bfReserved1) _ 2 _ rfl,
      u32At_skip (le16 h.bfReserved2) _ 2 _ rfl,
      u32At_skip (le32 h.bfOffBits) _ 4 _ rfl]
    exact u32At_le32 _ h6 _
  have e7 : i32At (h.toBytes ++ rest) 18 = h.biWidth := by
    unfold BMPHeader.toBytes
    simp only [a]
    rw [show (18 : Nat) = 2 + (4 + (2 + (2 + (4 + (4 + 0))))) from rfl,
      i32At_skip (le16 h.bfType) _ 2 _ rfl,
      i32At_skip (le32 h.bfSize) _ 4 _ rfl,
      i32At_skip (le16 h.bfReserved1) _ 2 _ rfl,
      i32At_skip (le16 h.bfReserved2) _ 2 _ rfl,
      i32At_skip (le32 h.bfOffBits) _ 4 _ rfl,
      i32At_skip (le32 h.biSize) _ 4 _ rfl]
    exact i32At_le32s _ h7.1 h7.2 _
  have e8 : i32At (h.toBytes ++ rest) 22 = h.biHeight := by
    unfold BMPHeader.toBytes
    simp only [a]
    rw [show (22 : Nat) = 2 + (4 + (2 + (2 + (4 + (4 + (4 + 0)))))) from rfl,
      i32At_skip (le16 h.bfType) _ 2 _ rfl,
      i32At_skip (le32 h.bfSize) _ 4 _ rfl,
      i32At_skip (le16 h.bfReserved1) _ 2 _ rfl,
      i32At_skip (le16 h.bfReserved2) _ 2 _ rfl,
      i32At_skip (le32 h.bfOffBits) _ 4 _ rfl,
      i32At_skip (le32 h.biSize) _ 4 _ rfl,
      i32At_skip (le32s h.biWidth) _ 4 _ rfl]
    exact i32At_le32s _ h8.1 h8.2 _
  have e9 : u16At (h.toBytes ++ rest) 26 = h.biPlanes := by
    unfold BMPHeader.toBytes
    simp only [a]
    rw [show (26 : Nat) = 2 + (4 + (2 + (2 + (4 + (4 + (4 + (4 + 0))))))) from rfl,
      u16At_skip (le16 h.bfType) _ 2 _ rfl,
      u16At_skip (le32 h.bfSize) _ 4 _ rfl,
      u16At_skip (le16 h.bfReserved1) _ 2 _ rfl,
      u16At_skip (le16 h.bfReserved2) _ 2 _ rfl,
      u16At_skip (le32 h.bfOffBits) _ 4 _ rfl,
      u16At_skip (le32 h.biSize) _ 4 _ rfl,
      u16At_skip (le32s h.biWidth) _ 4 _ rfl,
      u16At_skip (le32s h.biHeight) _ 4 _ rfl]
    exact u16At_le16 _ h9 _
  have e10 : u16At (h.toBytes ++ rest) 28 = h.biBitCount := by
    unfold BMPHeader.toBytes
    simp only [a]
    rw [show (28 : Nat) = 2 + (4 + (2 + (2 + (4 + (4 + (4 + (4 + (2 + 0)))))))) from rfl,
      u16At_skip (le16 h.bfType) _ 2 _ rfl,
      u16At_skip (le32 h.bfSize) _ 4 _ rfl,
      u16At_skip (le16 h.bfReserved1) _ 2 _ rfl,
      u16At_skip (le16 h.bfReserved2) _ 2 _ rfl,
      u16At_skip (le32 h.bfOffBits) _ 4 _ rfl,
      u16At_skip (le32 h.biSize) _ 4 _ rfl,
      u16At_skip (le32s h.biWidth) _ 4 _ rfl,
      u16At_skip (le32s h.biHeight) _ 4 _ rfl,
      u16At_skip (le16 h.biPlanes) _ 2 _ rfl]
    exact u16At_le16 _ h10 _
  have e11 : u32At (h.toBytes ++ rest) 30 = h.biCompression := by
    unfold BMPHeader.toBytes
    simp only [a]
    rw [show (30 : Nat) = 2 + (4 + (2 + (2 + (4 + (4 + (4 + (4 + (2 + (2 + 0))))))))) from rfl,
      u32At_skip (le16 h.bfType) _ 2 _ rfl,
      u32At_skip (le32 h.bfSize) _ 4 _ rfl,
      u32At_skip (le16 h.bfReserved1) _ 2 _ rfl,
      u32At_skip (le16 h.bfReserved2) _ 2 _ rfl,
      u32At_skip (le32 h.bfOffBits) _ 4 _ rfl,
      u32At_skip (le32 h.biSize) _ 4 _ rfl,
      u32At_skip (le32s h.biWidth) _ 4 _ rfl,
      u32At_skip (le32s h.biHeight) _ 4 _ rfl,
      u32At_skip (le16 h.biPlanes) _ 2 _ rfl,
      u32At_skip (le16 h.biBitCount) _ 2 _ rfl]
    exact u32At_le32 _ h11 _
  have e12 : u32At (h.toBytes ++ rest) 34 = h.biSizeImage := by
    unfold BMPHeader.toBytes
    simp only [a]
    rw [show (34 : Nat) = 2 + (4 + (2 + (2 + (4 + (4 + (4 + (4 + (2 + (2 + (4 + 0)))))))))) from rfl,
      u32At_skip (le16 h.bfType) _ 2 _ rfl,
      u32At_skip (le32 h.bfSize) _ 4 _ rfl,
      u32At_skip (le16 h.bfReserved1) _ 2 _ rfl,
      u32At_skip (le16 h.bfReserved2) _ 2 _ rfl,
      u32At_skip (le32 h.bfOffBits) _ 4 _ rfl,
      u32At_skip (le32 h.biSize) _ 4 _ rfl,
      u32At_skip (le32s h.biWidth) _ 4 _ rfl,
      u32At_skip (le32s h.biHeight) _ 4 _ rfl,
      u32At_skip (le16 h.biPlanes) _ 2 _ rfl,
      u32At_skip (le16 h.biBitCount) _ 2 _ rfl,
      u32At_skip (le32 h.biCompression) _ 4 _ rfl]
    exact u32At_le32 _ h12 _
  have e13 : i32At (h.toBytes ++ rest) 38 = h.biXPelsPerMeter := by
    unfold BMPHeader.toBytes
    simp only [a]
    rw [show (38 : Nat) = 2 + (4 + (2 + (2 + (4 + (4 + (4 + (4 + (2 + (2 + (4 + (4 + 0))))))))))) from rfl,
      i32At_skip (le16 h.bfType) _ 2 _ rfl,
      i32At_skip (le32 h.bfSize) _ 4 _ rfl,
      i32At_skip (le16 h.bfReserved1) _ 2 _ rfl,
      i32At_skip (le16 h.bfReserved2) _ 2 _ rfl,
      i32At_skip (le32 h.bfOffBits) _ 4 _ rfl,
      i32At_skip (le32 h.biSize) _ 4 _ rfl,
      i32At_skip (le32s h.biWidth) _ 4 _ rfl,
      i32At_skip (le32s h.biHeight) _ 4 _ rfl,
      i32At_skip (le16 h.biPlanes) _ 2 _ rfl,
      i32At_skip (le16 h.biBitCount) _ 2 _ rfl,
      i32At_skip (le32 h.biCompression) _ 4 _ rfl,
      i32At_skip (le32 h.biSizeImage) _ 4 _ rfl]
    exact i32At_le32s _ h13.1 h13.2 _
  have e14 : i32At (h.toBytes ++ rest) 42 = h.biYPelsPerMeter := by
    unfold BMPHeader.toBytes
    simp only [a]
    rw [show (42 : Nat) = 2 + (4 + (2 + (2 + (4 + (4 + (4 + (4 + (2 + (2 + (4 + (4 + (4 + 0)))))))))))) from rfl,
      i32At_skip (le16 h.bfType) _ 2 _ rfl,
      i32At_skip (le32 h.bfSize) _ 4 _ rfl,
      i32At_skip (le16 h.bfReserved1) _ 2 _ rfl,
      i32At_skip (le16 h.bfReserved2) _ 2 _ rfl,
      i32At_skip (le32 h.bfOffBits) _ 4 _ rfl,
      i32At_skip (le32 h.biSize) _ 4 _ rfl,
      i32At_skip (le32s h.biWidth) _ 4 _ rfl,
      i32At_skip (le32s h.biHeight) _ 4 _ rfl,
      i32At_skip (le16 h.biPlanes) _ 2 _ rfl,
      i32At_skip (le16 h.biBitCount) _ 2 _ rfl,
      i32At_skip (le32 h.biCompression) _ 4 _ rfl,
      i32At_skip (le32 h.biSizeImage) _ 4 _ rfl,
      i32At_skip (le32s h.biXPelsPerMeter) _ 4 _ rfl]
    exact i32At_le32s _ h14.1 h14.2 _
  have e15 : u32At (h.toBytes ++ rest) 46 = h.biClrUsed := by
    unfold BMPHeader.toBytes
    simp only [a]
    rw [show (46 : Nat) = 2 + (4 + (2 + (2 + (4 + (4 + (4 + (4 + (2 + (2 + (4 + (4 + (4 + (4 + 0))))))))))))) from rfl,
      u32At_skip (le16 h.bfType) _ 2 _ rfl,
      u32At_skip (le32 h.bfSize) _ 4 _ rfl,
      u32At_skip (le16 h.bfReserved1) _ 2 _ rfl,
      u32At_skip (le16 h.bfReserved2) _ 2 _ rfl,
      u32At_skip (le32 h.bfOffBits) _ 4 _ rfl,
      u32At_skip (le32 h.biSize) _ 4 _ rfl,
      u32At_skip (le32s h.biWidth) _ 4 _ rfl,
      u32At_skip (le32s h.biHeight) _ 4 _ rfl,
      u32At_skip (le16 h.biPlanes) _ 2 _ rfl,
      u32At_skip (le16 h.biBitCount) _ 2 _ rfl,
      u32At_skip (le32 h.biCompression) _ 4 _ rfl,
      u32At_skip (le32 h.biSizeImage) _ 4 _ rfl,
      u32At_skip (le32s h.biXPelsPerMeter) _ 4 _ rfl,
      u32At_skip (le32s h.biYPelsPerMeter) _ 4 _ rfl]
    exact u32At_le32 _ h15 _
  have e16 : u32At (h.toBytes ++ rest) 50 = h.biClrImportant := by
    unfold BMPHeader.toBytes
    simp only [a]
    rw [show (50 : Nat) = 2 + (4 + (2 + (2 + (4 + (4 + (4 + (4 + (2 + (2 + (4 + (4 + (4 + (4 + (4 + 0)))))))))))))) from rfl,
      u32At_skip (le16 h.bfType) _ 2 _ rfl,
      u32At_skip (le32 h.bfSize) _ 4 _ rfl,
      u32At_skip (le16 h.bfReserved1) _ 2 _ rfl,
      u32At_skip (le16 h.bfReserved2) _ 2 _ rfl,
      u32At_skip (le32 h.bfOffBits) _ 4 _ rfl,
      u32At_skip (le32 h.biSize) _ 4 _ rfl,
      u32At_skip (le32s h.biWidth) _ 4 _ rfl,
      u32At_skip (le32s h.biHeight) _ 4 _ rfl,
      u32At_skip (le16 h.biPlanes) _ 2 _ rfl,
      u32At_skip (le16 h.biBitCount) _ 2 _ rfl,
      u32At_skip (le32 h.biCompression) _ 4 _ rfl,
      u32At_skip (le32 h.biSizeImage) _ 4 _ rfl,
      u32At_skip (le32s h.biXPelsPerMeter) _ 4 _ rfl,
      u32At_skip (le32s h.biYPelsPerMeter) _ 4 _ rfl,
      u32At_skip (le32 h.biClrUsed) _ 4 _ rfl]
    exact u32At_le32 _ h16 _
  unfold BMPHeader.ofBytes
  rw [e1, e2, e3, e4, e5, e6, e7, e8, e9, e10, e11, e12, e13, e14, e15, e16]

theorem getElem?_of_byteAt (bs : List Byte) (i v : Nat) (hi : i < bs.length) (hv : v < 256)
    (h : byteAt bs i = v) : bs[i]? = some ⟨v, hv⟩ := by
  unfold byteAt at h
  rw [List.getD_eq_getElem?_getD, List.getElem?_eq_getElem hi] at h
  rw [List.getElem?_eq_getElem hi]
  congr 1
  apply Fin.ext
  exact h

/-- The header record made for a well-formed image whose sizes fit in `int`, read
back from the first bytes of a file that starts with it. -/
theorem ofBytes_Make (w h : Int) (hw0 : 0 ≤ w) (hh0 : 0 ≤ h) (hW : 3 * w + 3 < 2147483648)
    (hov : rowStride w * h < 2147483648) (hh : h < 2147483648) (rest : List Byte) :
    BMPHeader.ofBytes ((BMPHeader.Make w h).toBytes ++ rest)
      = { BMPHeader.init with
          biWidth := w
          biHeight := h
          bfSize := (54 + rowStride w * h).toNat
          biSizeImage := (rowStride w * h).toNat } := by
  have hsb := rowStride_bounds w
  have hprod : 0 ≤ rowStride w * h := Int.mul_nonneg (by omega) hh0
  have hmk : BMPHeader.Make w h = { BMPHeader.init with
          biWidth := w
          biHeight := h
          bfSize := (54 + rowStride w * h).toNat
          biSizeImage := (rowStride w * h).toNat } := by
    unfold BMPHeader.Make imul
    rw [rowSize_eq w hw0 hW, wrap32_of_range _ (by omega) (by omega)]
    rw [Int.emod_eq_of_lt (by omega) (by omega), Int.emod_eq_of_lt (by omega) (by omega)]
  rw [hmk]
  apply ofBytes_toBytes <;> simp only [BMPHeader.init] <;> omega

theorem magic_of_u16At (bs : List Byte) (hlen : 2 ≤ bs.length) (h : u16At bs 0 = 0x4D42) :
    bs[0]? = some 0x42 ∧ bs[1]? = some 0x4D := by
  have hb0 := byteAt_lt bs 0
  have hb1 := byteAt_lt bs 1
  have h1 : byteAt bs 0 + 256 * byteAt bs 1 = 19778 := h
  exact ⟨getElem?_of_byteAt bs 0 0x42 (by omega) (by omega) (by omega),
    getElem?_of_byteAt bs 1 0x4D (by omega) (by omega) (by omega)⟩

theorem u16At_of_magic (bs : List Byte) (h0 : bs[0]? = some 0x42) (h1 : bs[1]? = some 0x4D) :
    u16At bs 0 = 0x4D42 := by
  unfold u16At
  rw [byteAt_eq_of_getElem? bs 0 _ h0, byteAt_eq_of_getElem? bs (0 + 1) _ h1]
  rfl

/-- Claim C3. For a buffer of width `w ≥ 0` and height `h ≥ 0` whose sizes fit in
`int`, the output of `SaveBMP` starts with 54 bytes that hold, low byte first and
with no padding: `0x42, 0x4D`; the 32-bit value `54 + rowStride * h` at offset 2;
16-bit zeros at 6 and 8; 54 at 10; 40 at 14; `w` at 18 and `h` at 22 (signed, `h`
positive); 1 at 26 and 24 at 28 (16 bits each); 0 at 30; `rowStride * h` at 34; and
zeros at 38, 42, 46 and 50. -/
theorem SaveBMP_header (image : Image) (hwf : image.WF)
    (hW : 3 * image.width + 3 < 2147483648)
    (hov : rowStride image.width * image.height < 2147483648)
    (hH : image.height < 2147483648) (room : Nat)
    (hroom : 54 + (rowStride image.width * image.height).toNat ≤ room) :
    ∃ wr, SaveBMP image (.opened room) = .ok (true, wr) ∧ 54 ≤ wr.written.length
      ∧ wr.written[0]? = some 0x42 ∧ wr.written[1]? = some 0x4D
      ∧ (u32At wr.written 2 : Int) = 54 + rowStride image.width * image.height
      ∧ u16At wr.written 6 = 0 ∧ u16At wr.written 8 = 0
      ∧ u32At wr.written 10 = 54 ∧ u32At wr.written 14 = 40
      ∧ i32At wr.written 18 = image.width ∧ i32At wr.written 22 = image.height
      ∧ u16At wr.written 26 = 1 ∧ u16At wr.written 28 = 24 ∧ u32At wr.written 30 = 0
      ∧ (u32At wr.written 34 : Int) = rowStride image.width * image.height
      ∧ i32At wr.written 38 = 0 ∧ i32At wr.written 42 = 0
      ∧ u32At wr.written 46 = 0 ∧ u32At wr.written 50 = 0 := by
  unfold Image.width Image.height at *
  obtain ⟨hw0, hh0, hlen⟩ := hwf
  have hsb := rowStride_bounds image.m_width
  have hprod : 0 ≤ rowStride image.m_width * image.m_height :=
    Int.mul_nonneg (by omega) hh0
  have hprod54 : 0 ≤ 54 + rowStride image.m_width * image.m_height := by omega
  have hwh : image.m_width * image.m_height ≤ rowStride image.m_width * image.m_height :=
    Int.mul_le_mul_of_nonneg_right (by omega) hh0
  have hov2 : image.m_width * image.m_height < 2147483648 := lt_of_le_of_lt hwh hov
  have hlen54 : 54 ≤ (fileBytes image).length := by
    rw [fileBytes_length image hw0]; omega
  have hsave := SaveBMP_ok image ⟨hw0, hh0, hlen⟩ hW hov2 room hroom
  have hof : BMPHeader.ofBytes (fileBytes image) = _ :=
    ofBytes_Make image.m_width image.m_height hw0 hh0 hW hov hH (pixelData image)
  unfold BMPHeader.ofBytes BMPHeader.init at hof
  rw [BMPHeader.mk.injEq] at hof
  obtain ⟨f1, f2, f3, f4, f5, f6, f7, f8, f9, f10, f11, f12, f13, f14, f15, f16⟩ := hof
  dsimp only at f1 f2 f3 f4 f5 f6 f7 f8 f9 f10 f11 f12 f13 f14 f15 f16
  have hmagic := magic_of_u16At (fileBytes image) (le_trans (by decide) hlen54) f1
  refine ⟨_, hsave, hlen54, hmagic.1, hmagic.2, ?_,
    f3, f4, f5, f6, f7, f8, f9, f10, f11, ?_, f13, f14, f15, f16⟩
  · show (u32At (fileBytes image) 2 : Int) = _
    rw [f2]
    exact Int.toNat_of_nonneg hprod54
  · show (u32At (fileBytes image) 34 : Int) = _
    rw [f12]
    exact Int.toNat_of_nonneg hprod

/-- Witness of `quantize_eq_quantizeSpec` (claim C4) at the channels 0 and 1. -/
theorem quantize_eq_quantizeSpec_witness :
    (quantize 0).val = 0 ∧ (quantize 1).val = 255 :=
  ⟨(quantize_eq_quantizeSpec 0).2.1 (le_refl 0), (quantize_eq_quantizeSpec 1).2.2 (le_refl 1)⟩

/-- Witness of `LoadBMP_rejects` (claim C6): 54 zero bytes have the magic bytes
`0x00, 0x00`. -/
theorem LoadBMP_rejects_witness :
    ¬ (zeroSource[0]? = some 0x42 ∧ zeroSource[1]? = some 0x4D)
      ∧ LoadBMP (.ofBytes zeroSource) = .ok ⟨[], 0, 0⟩ :=
  ⟨by decide, LoadBMP_rejects zeroSource (Or.inr (Or.inl (by decide)))⟩

/-- Witness of `SaveBMP_pixel_layout` (claim C2): the stored row 0, column 1 of the
2 by 2 sample image. -/
theorem SaveBMP_pixel_layout_witness :
    sampleImage.WF ∧ ∃ wr c, SaveBMP sampleImage (.opened 100) = .ok (true, wr)
      ∧ sampleImage.getPixel (sampleImage.height - 1 - 0) 1 = .ok c
      ∧ wr.written[(54 + 0 * rowStride sampleImage.width + 3 * 1).toNat]? = some (quantize c.b)
      ∧ wr.written[(54 + 0 * rowStride sampleImage.width + 3 * 1 + 1).toNat]?
          = some (quantize c.g)
      ∧ wr.written[(54 + 0 * rowStride sampleImage.width + 3 * 1 + 2).toNat]?
          = some (quantize c.r) :=
  ⟨by decide, SaveBMP_pixel_layout sampleImage (by decide) (by decide) (by decide) (by decide)
    (by decide) 100 (by decide) 0 1 (by decide) (by decide) (by decide) (by decide)⟩

/-- Witness of `SaveBMP_header` (claim C3) at the 2 by 2 sample image. -/
theorem SaveBMP_header_witness :
    sampleImage.WF ∧ ∃ wr, SaveBMP sampleImage (.opened 100) = .ok (true, wr)
      ∧ 54 ≤ wr.written.length
      ∧ wr.written[0]? = some 0x42 ∧ wr.written[1]? = some 0x4D
      ∧ (u32At wr.written 2 : Int) = 54 + rowStride sampleImage.width * sampleImage.height
      ∧ u16At wr.written 6 = 0 ∧ u16At wr.written 8 = 0
      ∧ u32At wr.written 10 = 54 ∧ u32At wr.written 14 = 40
      ∧ i32At wr.written 18 = sampleImage.width ∧ i32At wr.written 22 = sampleImage.height
      ∧ u16At wr.written 26 = 1 ∧ u16At wr.written 28 = 24 ∧ u32At wr.written 30 = 0
      ∧ (u32At wr.written 34 : Int) = rowStride sampleImage.width * sampleImage.height
      ∧ i32At wr.written 38 = 0 ∧ i32At wr.written 42 = 0
      ∧ u32At wr.written 46 = 0 ∧ u32At wr.written 50 = 0 :=
  ⟨by decide, SaveBMP_header sampleImage (by decide) (by decide) (by decide) (by decide) 100
    (by decide)⟩

/-! ## The loops of `LoadBMP` -/

theorem index_inj (w r R x x' : Int) (hx0 : 0 ≤ x) (hx : x < w)
    (hx0' : 0 ≤ x') (hx' : x' < w) (h : r * w + x' = R * w + x) : r = R ∧ x' = x := by
  have hw0 : 0 ≤ w := by omega
  rcases lt_trichotomy r R with hlt | heq | hgt
  · have h1 : (r + 1) * w ≤ R * w := Int.mul_le_mul_of_nonneg_right (by omega) hw0
    have h2 : (r + 1) * w = r * w + w := by ring
    omega
  · subst heq
    omega
  · have h1 : (R + 1) * w ≤ r * w := Int.mul_le_mul_of_nonneg_right (by omega) hw0
    have h2 : (R + 1) * w = R * w + w := by ring
    omega

theorem px_set (image : Image) (i : Nat) (c : Color) (r x : Int)
    (hi : i < image.m_pixels.length) :
    Image.px { image with m_pixels := image.m_pixels.set i c } r x
      = if i = (r * image.m_width + x).toNat then c else image.px r x := by
  unfold Image.px
  simp only [List.getD_eq_getElem?_getD, List.getElem?_set]
  by_cases h : i = (r * image.m_width + x).toNat
  · rw [if_pos h, if_pos h, if_pos hi]
    rfl
  · rw [if_neg h, if_neg h]

theorem colorAt_eq (rd : List Byte) (o : Nat) :
    (⟨((rd.getD (o + 2) 0).val : ℚ) / 255, ((rd.getD (o + 1) 0).val : ℚ) / 255,
      ((rd.getD o 0).val : ℚ) / 255⟩ : Color) = colorAt rd o := rfl

theorem loadPixel_ok (biHeight : Int) (image : Image) (hwf : image.WF)
    (hov : image.m_width * image.m_height < 2147483648)
    (hW : 3 * image.m_width + 3 < 2147483648)
    (y x : Int) (hy0 : 0 ≤ y) (hy : y < image.m_height) (hx0 : 0 ≤ x)
    (hx : x < image.m_width) (rowData : List Byte)
    (hrd : 3 * image.m_width ≤ rowData.length) :
    loadPixel biHeight image.m_height y x rowData image =
      .ok { image with m_pixels := (image.m_pixels.set
        (memRow biHeight image.m_height y * image.m_width + x).toNat
        (colorAt rowData (3 * x).toNat)) } := by
  have hH : image.m_height < 2147483648 := by
    have h1 : 1 * image.m_height ≤ image.m_width * image.m_height :=
      Int.mul_le_mul_of_nonneg_right (by omega) (by omega)
    omega
  unfold loadPixel
  rw [x3_add x 0 hx0 (by omega) (by omega) (by omega)]
  rw [x3_add x 1 hx0 (by omega) (by omega) (by omega)]
  rw [x3_add x 2 hx0 (by omega) (by omega) (by omega)]
  rw [rowGet_ok _ _ (by omega) (by omega), bind_ok]
  rw [rowGet_ok _ _ (by omega) (by omega), bind_ok]
  rw [rowGet_ok _ _ (by omega) (by omega), bind_ok]
  have e0 : (3 * x + 0).toNat = (3 * x).toNat := by omega
  have e1 : (3 * x + 1).toNat = (3 * x).toNat + 1 := by omega
  have e2 : (3 * x + 2).toNat = (3 * x).toNat + 2 := by omega
  rw [e0, e1, e2]
  simp only [colorAt_eq]
  by_cases hb : 0 < biHeight
  · rw [if_pos hb, flip_row _ y hy0 hy hH]
    rw [writeRow_ok image hwf hov _ x (by omega) (by omega) hx0 hx]
    unfold memRow
    rw [if_pos hb]
  · rw [if_neg hb]
    rw [writeRow_ok image hwf hov _ x hy0 hy hx0 hx]
    unfold memRow
    rw [if_neg hb]

theorem memRow_range (biHeight height y : Int) (hy0 : 0 ≤ y) (hy : y < height) :
    0 ≤ memRow biHeight height y ∧ memRow biHeight height y < height := by
  unfold memRow
  split_ifs <;> omega

theorem loadRowPixels_ok (biHeight : Int) (w h : Int) (hw0 : 0 ≤ w) (hh0 : 0 ≤ h)
    (hov : w * h < 2147483648) (hW : 3 * w + 3 < 2147483648)
    (y : Int) (hy0 : 0 ≤ y) (hy : y < h) (rowData : List Byte)
    (hrd : 3 * w ≤ rowData.length) (n : Nat) :
    ∀ (x : Int) (image : Image), 0 ≤ x → x + n ≤ w → image.m_width = w →
      image.m_height = h → (image.m_pixels.length : Int) = w * h →
      ∃ image', loadRowPixels biHeight h y rowData n x image = .ok image'
        ∧ image'.m_width = w ∧ image'.m_height = h
        ∧ (image'.m_pixels.length : Int) = w * h
        ∧ ∀ r x', 0 ≤ r → r < h → 0 ≤ x' → x' < w →
            image'.px r x' =
              if r = memRow biHeight h y ∧ x ≤ x' ∧ x' < x + n
              then colorAt rowData (3 * x').toNat else image.px r x' := by
  induction n with
  | zero =>
    intro x image _ _ hiw hih hlen
    refine ⟨image, rfl, hiw, hih, hlen, ?_⟩
    intro r x' _ _ _ _
    rw [if_neg (by push_cast; omega)]
  | succ n ih =>
    intro x image hx0 hxn hiw hih hlen
    subst hiw hih
    have hmr := memRow_range biHeight image.m_height y hy0 hy
    have hxw : x < image.m_width := by omega
    have hib := index_bounds (memRow biHeight image.m_height y) x image.m_width
      image.m_height hmr.1 hmr.2 hx0 hxw
    unfold loadRowPixels
    rw [loadPixel_ok biHeight image ⟨hw0, hh0, hlen⟩ hov hW y x hy0 hy hx0 hxw rowData hrd,
      bind_ok]
    obtain ⟨image', hrun, hw', hh', hlen', hpx⟩ := ih (x + 1)
      { image with m_pixels := (image.m_pixels.set
        (memRow biHeight image.m_height y * image.m_width + x).toNat
        (colorAt rowData (3 * x).toNat)) }
      (by omega) (by push_cast at hxn; omega) rfl rfl
      (by rw [List.length_set]; exact hlen)
    refine ⟨image', hrun, hw', hh', hlen', ?_⟩
    intro r x' hr0 hr hx0' hx'
    rw [hpx r x' hr0 hr hx0' hx', px_set image _ _ r x' (by omega)]
    by_cases hc : r = memRow biHeight image.m_height y ∧ x + 1 ≤ x' ∧ x' < x + 1 + (n : Int)
    · rw [if_pos hc, if_pos (by push_cast; omega)]
    · rw [if_neg hc]
      by_cases he : (memRow biHeight image.m_height y * image.m_width + x).toNat
          = (r * image.m_width + x').toNat
      · have hib' := index_bounds r x' image.m_width image.m_height hr0 hr hx0' hx'
        have hinj := index_inj image.m_width r (memRow biHeight image.m_height y) x x'
          hx0 hxw hx0' hx' (by omega)
        rw [if_pos he, if_pos (by push_cast; omega)]
        rw [hinj.2]
      · rw [if_neg he]
        have hne : ¬ (r = memRow biHeight image.m_height y ∧ x' = x) := by
          rintro ⟨h1, h2⟩
          apply he
          rw [h1, h2]
        rw [if_neg (by push_cast; omega)]

theorem byteAt_drop (bs : List Byte) (n i : Nat) : byteAt (bs.drop n) i = byteAt bs (n + i) := by
  unfold byteAt
  rw [List.getD_eq_getElem?_getD, List.getD_eq_getElem?_getD, List.getElem?_drop]

theorem colorAt_take (bs : List Byte) (n o : Nat) (h : o + 2 < n) :
    colorAt (bs.take n) o = colorAt bs o := by
  unfold colorAt
  rw [byteAt_take bs n _ h, byteAt_take bs n (o + 1) (by omega), byteAt_take bs n o (by omega)]

theorem colorAt_drop (bs : List Byte) (n o : Nat) :
    colorAt (bs.drop n) o = colorAt bs (n + o) := by
  unfold colorAt
  rw [byteAt_drop, byteAt_drop, byteAt_drop]
  rfl

theorem memRow_memRow (biHeight height y : Int) :
    memRow biHeight height (memRow biHeight height y) = y := by
  unfold memRow
  split_ifs <;> omega

theorem read_full (rest rowData : List Byte) (n : Nat) (hn : n ≤ rest.length)
    (hrd : rowData.length = n) :
    (BinaryFileReader.mk true rest).read rowData n
      = ((n : Int), rest.take n, ⟨true, rest.drop n⟩) := by
  unfold BinaryFileReader.read
  have hl : (rest.take n).length = n := by rw [List.length_take]; omega
  have hd : rowData.drop n = [] := by
    rw [List.drop_eq_nil_iff]; omega
  simp only [hl, hd, List.append_nil]

theorem read_short (rest rowData : List Byte) (n : Nat) (hn : rest.length < n) :
    ((BinaryFileReader.mk true rest).read rowData n).1 = (rest.length : Int) := by
  unfold BinaryFileReader.read
  simp only [List.length_take]
  congr 1
  omega

/-- The outer loop of `LoadBMP` when the file holds all the rows still to read: it
ends with an image in which every stored row read has been placed in its memory
row. -/
theorem loadRows_ok (biHeight : Int) (w h : Int) (hw0 : 0 ≤ w) (hh0 : 0 ≤ h)
    (hov : w * h < 2147483648) (hW : 3 * w + 3 < 2147483648) (n : Nat) :
    ∀ (y : Int) (rowData rest : List Byte) (image : Image), 0 ≤ y → y + n = h →
      rowData.length = (rowStride w).toNat → n * (rowStride w).toNat ≤ rest.length →
      image.m_width = w → image.m_height = h → (image.m_pixels.length : Int) = w * h →
      ∃ image', loadRows biHeight w h (rowStride w) n y rowData ⟨true, rest⟩ image = .ok image'
        ∧ image'.m_width = w ∧ image'.m_height = h
        ∧ (image'.m_pixels.length : Int) = w * h
        ∧ ∀ r x, 0 ≤ r → r < h → 0 ≤ x → x < w →
            image'.px r x =
              if y ≤ memRow biHeight h r
              then colorAt rest ((memRow biHeight h r - y) * rowStride w + 3 * x).toNat
              else image.px r x := by
  have hsb := rowStride_bounds w
  induction n with
  | zero =>
    intro y rowData rest image _ hyn _ _ hiw hih hlen
    refine ⟨image, rfl, hiw, hih, hlen, ?_⟩
    intro r x hr0 hr _ _
    have hmr := memRow_range biHeight h r hr0 hr
    rw [if_neg (by push_cast at hyn; omega)]
  | succ n ih =>
    intro y rowData rest image hy0 hyn hrd hrest hiw hih hlen
    have hsucc : (n + 1) * (rowStride w).toNat = n * (rowStride w).toNat + (rowStride w).toNat := by
      ring
    have hyh : y < h := by push_cast at hyn; omega
    unfold loadRows
    simp only []
    rw [read_full rest rowData _ (by omega) hrd]
    simp only []
    rw [if_neg (by
      intro hne
      apply hne
      omega)]
    obtain ⟨img1, hrun1, hw1, hh1, hlen1, hpx1⟩ := loadRowPixels_ok biHeight w h hw0 hh0 hov hW
      y hy0 hyh (rest.take (rowStride w).toNat)
      (by rw [List.length_take]; omega) w.toNat 0 image (by omega) (by omega) hiw hih hlen
    rw [hrun1, bind_ok]
    obtain ⟨image', hrun, hw', hh', hlen', hpx⟩ := ih (y + 1) (rest.take (rowStride w).toNat)
      (rest.drop (rowStride w).toNat) img1 (by omega) (by push_cast at hyn; omega)
      (by rw [List.length_take]; omega) (by rw [List.length_drop]; omega) hw1 hh1 hlen1
    refine ⟨image', hrun, hw', hh', hlen', ?_⟩
    intro r x hr0 hr hx0 hx
    have hmr := memRow_range biHeight h r hr0 hr
    have hinv := memRow_memRow biHeight h r
    rw [hpx r x hr0 hr hx0 hx, hpx1 r x hr0 hr hx0 hx]
    by_cases hc1 : y + 1 ≤ memRow biHeight h r
    · rw [if_pos hc1, if_pos (by omega), colorAt_drop]
      have hmul : (memRow biHeight h r - y) * rowStride w
          = (memRow biHeight h r - (y + 1)) * rowStride w + rowStride w := by ring
      have hnn : 0 ≤ (memRow biHeight h r - (y + 1)) * rowStride w :=
        Int.mul_nonneg (by omega) (by omega)
      congr 1
      omega
    · rw [if_neg hc1]
      by_cases hc2 : y ≤ memRow biHeight h r
      · have hyeq : memRow biHeight h r = y := by omega
        have hr : r = memRow biHeight h y := by rw [← hyeq, hinv]
        rw [if_pos hc2, if_pos ⟨hr, by omega, by omega⟩, hyeq, colorAt_take _ _ _ (by omega)]
        congr 1
        have : (y - y) * rowStride w = 0 := by rw [Int.sub_self, Int.zero_mul]
        omega
      · rw [if_neg hc2]
        have hne : ¬ (r = memRow biHeight h y ∧ 0 ≤ x ∧ x < 0 + ((w.toNat : Nat) : Int)) := by
          rintro ⟨h1, -, -⟩
          apply hc2
          rw [h1, memRow_memRow]
        rw [if_neg hne]

/-- The outer loop of `LoadBMP` when the file ends before the rows still to read: a
read comes short and the function returns the empty image. -/
theorem loadRows_short (biHeight : Int) (w h : Int) (hw0 : 0 ≤ w) (hh0 : 0 ≤ h)
    (hov : w * h < 2147483648) (hW : 3 * w + 3 < 2147483648) (n : Nat) :
    ∀ (y : Int) (rowData rest : List Byte) (image : Image), 0 ≤ y → y + n = h →
      rowData.length = (rowStride w).toNat → rest.length < n * (rowStride w).toNat →
      image.m_width = w → image.m_height = h → (image.m_pixels.length : Int) = w * h →
      loadRows biHeight w h (rowStride w) n y rowData ⟨true, rest⟩ image = .ok Image.empty := by
  have hsb := rowStride_bounds w
  induction n with
  | zero =>
    intro y rowData rest image _ _ _ hrest
    omega
  | succ n ih =>
    intro y rowData rest image hy0 hyn hrd hrest hiw hih hlen
    have hsucc : (n + 1) * (rowStride w).toNat = n * (rowStride w).toNat + (rowStride w).toNat := by
      ring
    have hyh : y < h := by push_cast at hyn; omega
    unfold loadRows
    simp only []
    by_cases hshort : rest.length < (rowStride w).toNat
    · rw [read_short rest rowData _ hshort, if_pos (by omega)]
    · rw [read_full rest rowData _ (by omega) hrd]
      simp only []
      rw [if_neg (by
        intro hne
        apply hne
        omega)]
      obtain ⟨img1, hrun1, hw1, hh1, hlen1, -⟩ := loadRowPixels_ok biHeight w h hw0 hh0 hov hW
        y hy0 hyh (rest.take (rowStride w).toNat)
        (by rw [List.length_take]; omega) w.toNat 0 image (by omega) (by omega) hiw hih hlen
      rw [hrun1, bind_ok]
      exact ih (y + 1) (rest.take (rowStride w).toNat)
        (rest.drop (rowStride w).toNat) img1 (by omega) (by push_cast at hyn; omega)
        (by rw [List.length_take]; omega) (by rw [List.length_drop]; omega) hw1 hh1 hlen1

/-! ## `LoadBMP` on a whole file -/

theorem iabs_eq (a : Int) (h : -2147483648 < a) (h1 : a < 2147483648) : iabs a = |a| := by
  unfold iabs
  by_cases hneg : a < 0
  · rw [if_pos hneg, wrap32_of_range _ (by omega) (by omega), abs_of_neg hneg]
  · rw [if_neg hneg, abs_of_nonneg (by omega)]

theorem i32At_range (bs : List Byte) (i : Nat) :
    -2147483648 ≤ i32At bs i ∧ i32At bs i < 2147483648 := by
  unfold i32At wrap32
  omega

theorem create_ok (w h : Int) (c : Color) (hw : 1 ≤ w) (hh : 1 ≤ h)
    (hov : w * h < 2147483648) :
    Image.create w h c = .ok ⟨List.replicate (w * h).toNat c, w, h⟩ := by
  have hpos : 0 ≤ w * h := Int.mul_nonneg (by omega) (by omega)
  unfold Image.create imul
  rw [if_neg (by omega), wrap32_of_range _ (by omega) (by omega), if_neg (by omega)]

theorem toNat_mul (a b : Int) (ha : 0 ≤ a) (hb : 0 ≤ b) :
    (a * b).toNat = b.toNat * a.toNat := by
  have h1 : ((b.toNat * a.toNat : Nat) : Int) = a * b := by
    push_cast
    rw [Int.toNat_of_nonneg ha, Int.toNat_of_nonneg hb]
    ring
  have h2 : 0 ≤ a * b := Int.mul_nonneg ha hb
  omega

theorem abs_range (w H : Int) (hHr : -2147483648 ≤ H) (hw : 1 ≤ w) (hH : H ≠ 0)
    (hov : w * |H| < 2147483648) : 1 ≤ |H| ∧ |H| < 2147483648 ∧ -2147483648 < H := by
  have habs : 1 ≤ |H| := Int.one_le_abs hH
  have hHlt : |H| < 2147483648 := by
    have h1 : 1 * |H| ≤ w * |H| := Int.mul_le_mul_of_nonneg_right hw (by omega)
    omega
  refine ⟨habs, hHlt, ?_⟩
  by_contra hcon
  have : H = -2147483648 := by omega
  rw [this] at hHlt
  have h2 : |(-2147483648 : Int)| = 2147483648 := by decide
  omega

/-- The function `LoadBMP` on a file of at least 54 bytes with a valid header and
sizes that fit in `int`: the image and the row buffer are allocated and the rows are
read from offset 54. -/
theorem LoadBMP_rows (bs : List Byte) (w H : Int) (hlen : 54 ≤ bs.length)
    (hmagic : u16At bs 0 = 0x4D42) (hbpp : u16At bs 28 = 24) (hwf : i32At bs 18 = w)
    (hHf : i32At bs 22 = H) (hw : 1 ≤ w) (hH : H ≠ 0) (hW : 3 * w + 3 < 2147483648)
    (hov : w * |H| < 2147483648) :
    LoadBMP (.ofBytes bs) =
      loadRows H w |H| (rowStride w) |H|.toNat 0 (List.replicate (rowStride w).toNat 0)
        ⟨true, bs.drop 54⟩ ⟨List.replicate (w * |H|).toNat (Color.gray 1), w, |H|⟩ := by
  have hsb := rowStride_bounds w
  have hHr := i32At_range bs 22
  rw [hHf] at hHr
  obtain ⟨habs, hHlt, hHgt⟩ := abs_range w H hHr.1 hw hH hov
  rw [LoadBMP_ofBytes bs hlen, if_neg (by rw [hmagic, hbpp]; simp), hwf, hHf,
    iabs_eq H hHgt hHr.2, create_ok w |H| _ hw habs hov, bind_ok, rowSize_eq w (by omega) hW]
  unfold newRowData
  rw [if_neg (by omega), bind_ok]

/-- The function `LoadBMP` on a file with a valid header, sizes that fit in `int`
and all the pixel data: the image has the width and the absolute height of the
header, and its pixel at memory row `r` and column `x` is decoded from the three
bytes at offset `54 + memRow r * rowStride + 3 * x`. -/
theorem LoadBMP_ok (bs : List Byte) (w H : Int) (hmagic : u16At bs 0 = 0x4D42)
    (hbpp : u16At bs 28 = 24) (hwf : i32At bs 18 = w) (hHf : i32At bs 22 = H)
    (hw : 1 ≤ w) (hH : H ≠ 0) (hW : 3 * w + 3 < 2147483648)
    (hov : w * |H| < 2147483648) (hsize : 54 + rowStride w * |H| ≤ bs.length) :
    ∃ image, LoadBMP (.ofBytes bs) = .ok image ∧ image.m_width = w ∧ image.m_height = |H|
      ∧ (image.m_pixels.length : Int) = w * |H|
      ∧ ∀ r x, 0 ≤ r → r < |H| → 0 ≤ x → x < w →
          image.px r x = colorAt bs (54 + memRow H |H| r * rowStride w + 3 * x).toNat := by
  have hsb := rowStride_bounds w
  have hHr := i32At_range bs 22
  rw [hHf] at hHr
  obtain ⟨habs, hHlt, hHgt⟩ := abs_range w H hHr.1 hw hH hov
  have hprod : 0 ≤ rowStride w * |H| := Int.mul_nonneg (by omega) (by omega)
  rw [LoadBMP_rows bs w H (by omega) hmagic hbpp hwf hHf hw hH hW hov]
  have hmul := toNat_mul (rowStride w) |H| (by omega) (by omega)
  obtain ⟨image, hrun, hw2, hh2, hlen2, hpx⟩ := loadRows_ok H w |H| (by omega) (by omega) hov hW
    |H|.toNat 0 (List.replicate (rowStride w).toNat 0) (bs.drop 54)
    ⟨List.replicate (w * |H|).toNat (Color.gray 1), w, |H|⟩ (by omega) (by omega)
    (by rw [List.length_replicate]) (by rw [List.length_drop]; omega) rfl rfl
    (by
      have : 0 ≤ w * |H| := Int.mul_nonneg (by omega) (by omega)
      simp only [List.length_replicate]
      omega)
  refine ⟨image, hrun, hw2, hh2, hlen2, ?_⟩
  intro r x hr0 hr hx0 hx
  have hmr := memRow_range H |H| r hr0 hr
  have hnn : 0 ≤ memRow H |H| r * rowStride w := Int.mul_nonneg hmr.1 (by omega)
  rw [hpx r x hr0 hr hx0 hx, if_pos hmr.1, colorAt_drop, Int.sub_zero]
  have e : 54 + (memRow H |H| r * rowStride w + 3 * x).toNat
      = (54 + memRow H |H| r * rowStride w + 3 * x).toNat := by omega
  rw [e]

/-- Claim C5, amended by the `int` range of the sizes: for a byte source whose header has
the magic bytes `B`, `M`, bit count 24, width `w ≥ 1` and height field `H ≠ 0`, with
`3 * w + 3` and `w * |H|` below `2^31`, and that holds at least
`54 + rowStride * |H|` bytes, `LoadBMP` returns a buffer of width `w` and height
`|H|` whose pixel at memory row `r` and column `x` is
`(byte[o+2]/255, byte[o+1]/255, byte[o]/255)` with `o = 54 + y * rowStride + 3 * x`,
where `y = |H| - 1 - r` when `H > 0` and `y = r` when `H < 0`. -/
theorem LoadBMP_pixels (bs : List Byte) (w H : Int)
    (hm0 : bs[0]? = some 0x42) (hm1 : bs[1]? = some 0x4D) (hbpp : u16At bs 28 = 24)
    (hwf : i32At bs 18 = w) (hHf : i32At bs 22 = H) (hw : 1 ≤ w) (hH : H ≠ 0)
    (hW : 3 * w + 3 < 2147483648) (hov : w * |H| < 2147483648)
    (hsize : 54 + rowStride w * |H| ≤ bs.length) :
    ∃ image, LoadBMP (.ofBytes bs) = .ok image ∧ image.width = w ∧ image.height = |H|
      ∧ (0 < H → ∀ r x, 0 ≤ r → r < |H| → 0 ≤ x → x < w →
          image.getPixel r x
            = .ok (colorAt bs (54 + (|H| - 1 - r) * rowStride w + 3 * x).toNat))
      ∧ (H < 0 → ∀ r x, 0 ≤ r → r < |H| → 0 ≤ x → x < w →
          image.getPixel r x = .ok (colorAt bs (54 + r * rowStride w + 3 * x).toNat)) := by
  obtain ⟨image, hrun, hw2, hh2, hlen2, hpx⟩ := LoadBMP_ok bs w H (u16At_of_magic bs hm0 hm1)
    hbpp hwf hHf hw hH hW hov hsize
  have hwfi : image.WF := by
    refine ⟨by omega, ?_, by rw [hw2, hh2]; exact hlen2⟩
    rw [hh2]
    exact abs_nonneg H
  have hovi : image.m_width * image.m_height < 2147483648 := by rw [hw2, hh2]; exact hov
  refine ⟨image, hrun, hw2, hh2, ?_, ?_⟩
  · intro hpos r x hr0 hr hx0 hx
    rw [getPixel_ok image hwfi hovi r x hr0 (by rw [hh2]; exact hr) hx0 (by rw [hw2]; exact hx),
      hpx r x hr0 hr hx0 hx]
    unfold memRow
    rw [if_pos hpos]
  · intro hneg r x hr0 hr hx0 hx
    rw [getPixel_ok image hwfi hovi r x hr0 (by rw [hh2]; exact hr) hx0 (by rw [hw2]; exact hx),
      hpx r x hr0 hr hx0 hx]
    unfold memRow
    rw [if_neg (by omega)]

/-- Truncated files whose sizes are in the `int` range: for a byte source with a valid
header (magic `B`, `M`, 24 bits per pixel, width `w ≥ 1`, height field `H ≠ 0`),
with `3 * w + 3` and `w * |H|` below `2^31`, that holds fewer than
`54 + rowStride * |H|` bytes, `LoadBMP` returns the empty buffer. -/
theorem LoadBMP_truncated (bs : List Byte) (w H : Int) (hlen : 54 ≤ bs.length)
    (hm0 : bs[0]? = some 0x42) (hm1 : bs[1]? = some 0x4D) (hbpp : u16At bs 28 = 24)
    (hwf : i32At bs 18 = w) (hHf : i32At bs 22 = H) (hw : 1 ≤ w) (hH : H ≠ 0)
    (hW : 3 * w + 3 < 2147483648) (hov : w * |H| < 2147483648)
    (hshort : (bs.length : Int) < 54 + rowStride w * |H|) :
    LoadBMP (.ofBytes bs) = .ok ⟨[], 0, 0⟩ := by
  have hsb := rowStride_bounds w
  have hHr := i32At_range bs 22
  rw [hHf] at hHr
  obtain ⟨habs, hHlt, hHgt⟩ := abs_range w H hHr.1 hw hH hov
  have hprod : 0 ≤ rowStride w * |H| := Int.mul_nonneg (by omega) (by omega)
  have hmul := toNat_mul (rowStride w) |H| (by omega) (by omega)
  rw [LoadBMP_rows bs w H hlen (u16At_of_magic bs hm0 hm1) hbpp hwf hHf hw hH hW hov]
  exact loadRows_short H w |H| (by omega) (by omega) hov hW
    |H|.toNat 0 (List.replicate (rowStride w).toNat 0) (bs.drop 54)
    ⟨List.replicate (w * |H|).toNat (Color.gray 1), w, |H|⟩ (by omega) (by omega)
    (by rw [List.length_replicate]) (by rw [List.length_drop]; omega) rfl rfl
    (by
      have : 0 ≤ w * |H| := Int.mul_nonneg (by omega) (by omega)
      simp only [List.length_replicate]
      omega)

/-! ## Decoding an encoded image -/

theorem quantize_error (c : ℚ) (h0 : 0 ≤ c) (h1 : c ≤ 1) :
    |((quantize c).val : ℚ) / 255 - c| ≤ 1 / 255 := by
  have hq : (((quantize c).val : Int) : ℚ) = ((quantize c).val : ℚ) := by norm_cast
  have hv := quantize_val c
  rw [← hq, hv, abs_le]
  unfold clamp
  have hn : ¬ (c * 255 + 1 / 2 < 0) := by
    intro h; linarith
  rw [if_neg hn]
  by_cases hbig : (255 : ℚ) < c * 255 + 1 / 2
  · rw [if_pos hbig]
    have : ⌊(255 : ℚ)⌋ = 255 := by norm_num
    rw [this]
    constructor
    · push_cast; linarith
    · push_cast; linarith
  · rw [if_neg hbig]
    have hle := Int.floor_le (c * 255 + 1 / 2)
    have hlt := Int.lt_floor_add_one (c * 255 + 1 / 2)
    constructor
    · linarith
    · linarith

theorem fileBytes_pixel (image : Image) (hw0 : 0 ≤ image.m_width) (y x : Int) (hy0 : 0 ≤ y)
    (hy : y < image.m_height) (hx0 : 0 ≤ x) (hx : x < image.m_width) (k : Nat) (hk : k < 3) :
    (fileBytes image)[(54 + y * rowStride image.m_width + 3 * x).toNat + k]?
      = (pixelBytes (image.px (image.m_height - 1 - y) x))[k]? := by
  have hsb := rowStride_bounds image.m_width
  have hprod : 0 ≤ y * rowStride image.m_width := Int.mul_nonneg hy0 (by omega)
  have e : (54 + y * rowStride image.m_width + 3 * x).toNat + k
      = (54 + y * rowStride image.m_width).toNat + ((3 * x).toNat + k) := by omega
  rw [e, fileBytes_row image hw0 y hy0 hy _ (by omega),
    rowBytes_pixel image hw0 _ x hx0 hx k hk]

theorem colorAt_fileBytes (image : Image) (hw0 : 0 ≤ image.m_width) (y x : Int) (hy0 : 0 ≤ y)
    (hy : y < image.m_height) (hx0 : 0 ≤ x) (hx : x < image.m_width) :
    colorAt (fileBytes image) (54 + y * rowStride image.m_width + 3 * x).toNat
      = ⟨((quantize (image.px (image.m_height - 1 - y) x).r).val : ℚ) / 255,
         ((quantize (image.px (image.m_height - 1 - y) x).g).val : ℚ) / 255,
         ((quantize (image.px (image.m_height - 1 - y) x).b).val : ℚ) / 255⟩ := by
  have h0 := fileBytes_pixel image hw0 y x hy0 hy hx0 hx 0 (by decide)
  have h1 := fileBytes_pixel image hw0 y x hy0 hy hx0 hx 1 (by decide)
  have h2 := fileBytes_pixel image hw0 y x hy0 hy hx0 hx 2 (by decide)
  have e0 : (fileBytes image)[(54 + y * rowStride image.m_width + 3 * x).toNat]?
      = some (quantize (image.px (image.m_height - 1 - y) x).b) := h0
  have e1 : (fileBytes image)[(54 + y * rowStride image.m_width + 3 * x).toNat + 1]?
      = some (quantize (image.px (image.m_height - 1 - y) x).g) := h1
  have e2 : (fileBytes image)[(54 + y * rowStride image.m_width + 3 * x).toNat + 2]?
      = some (quantize (image.px (image.m_height - 1 - y) x).r) := h2
  unfold colorAt
  rw [byteAt_eq_of_getElem? _ _ _ e2, byteAt_eq_of_getElem? _ _ _ e1,
    byteAt_eq_of_getElem? _ _ _ e0]

theorem flip_range (h r : Int) (hr0 : 0 ≤ r) (hr : r < h) :
    0 ≤ h - 1 - r ∧ h - 1 - r < h ∧ h - 1 - (h - 1 - r) = r := by
  omega

theorem px_mem (image : Image) (hwf : image.WF) (r x : Int) (hr0 : 0 ≤ r)
    (hr : r < image.m_height) (hx0 : 0 ≤ x) (hx : x < image.m_width) :
    image.px r x ∈ image.m_pixels := by
  obtain ⟨hw0, hh0, hlen⟩ := hwf
  have hi := index_bounds r x image.m_width image.m_height hr0 hr hx0 hx
  have hlt : (r * image.m_width + x).toNat < image.m_pixels.length := by omega
  unfold Image.px
  rw [List.getD_eq_getElem?_getD, List.getElem?_eq_getElem hlt]
  exact List.getElem_mem hlt

/-- The file of a well-formed image with at least one pixel, whose sizes fit in
`int`, decoded by `LoadBMP`: same width and height, and each pixel is the original
one with every channel quantized and divided by 255. -/
theorem LoadBMP_fileBytes (image : Image) (hwf : image.WF) (hw : 1 ≤ image.m_width)
    (hh : 1 ≤ image.m_height) (hW : 3 * image.m_width + 3 < 2147483648)
    (hov : rowStride image.m_width * image.m_height < 2147483648) :
    ∃ image2, LoadBMP (.ofBytes (fileBytes image)) = .ok image2
      ∧ image2.m_width = image.m_width ∧ image2.m_height = image.m_height
      ∧ (image2.m_pixels.length : Int) = image.m_width * image.m_height
      ∧ ∀ r x, 0 ≤ r → r < image.m_height → 0 ≤ x → x < image.m_width →
          image2.px r x = ⟨((quantize (image.px r x).r).val : ℚ) / 255,
            ((quantize (image.px r x).g).val : ℚ) / 255,
            ((quantize (image.px r x).b).val : ℚ) / 255⟩ := by
  obtain ⟨hw0, hh0, hlen⟩ := hwf
  have hsb := rowStride_bounds image.m_width
  have hprod : 0 ≤ rowStride image.m_width * image.m_height :=
    Int.mul_nonneg (by omega) hh0
  have hwh : image.m_width * image.m_height ≤ rowStride image.m_width * image.m_height :=
    Int.mul_le_mul_of_nonneg_right (by omega) hh0
  have hov2 : image.m_width * image.m_height < 2147483648 := lt_of_le_of_lt hwh hov
  have hH : image.m_height < 2147483648 := by
    have h1 : 1 * image.m_height ≤ image.m_width * image.m_height :=
      Int.mul_le_mul_of_nonneg_right hw hh0
    omega
  have habs : |image.m_height| = image.m_height := abs_of_nonneg hh0
  have hmul := toNat_mul (rowStride image.m_width) image.m_height (by omega) hh0
  have hsize : 54 + rowStride image.m_width * |image.m_height| ≤ (fileBytes image).length := by
    rw [fileBytes_length image hw0, habs]
    omega
  have hne : image.m_height ≠ 0 := by omega
  have hov3 : image.m_width * |image.m_height| < 2147483648 := by rw [habs]; exact hov2
  have hof : BMPHeader.ofBytes (fileBytes image) = _ :=
    ofBytes_Make image.m_width image.m_height hw0 hh0 hW hov hH (pixelData image)
  unfold BMPHeader.ofBytes BMPHeader.init at hof
  rw [BMPHeader.mk.injEq] at hof
  obtain ⟨f1, -, -, -, -, -, f7, f8, -, f10, -⟩ := hof
  dsimp only at f1 f7 f8 f10
  obtain ⟨image2, hrun, hw2, hh2, hlen2, hpx⟩ := LoadBMP_ok (fileBytes image) image.m_width
    image.m_height f1 f10 f7 f8 hw hne hW hov3 hsize
  rw [habs] at hh2 hlen2 hpx
  refine ⟨image2, hrun, hw2, hh2, hlen2, ?_⟩
  intro r x hr0 hr hx0 hx
  have hpos : 0 < image.m_height := lt_of_lt_of_le Int.zero_lt_one hh
  have hm : memRow image.m_height image.m_height r = image.m_height - 1 - r := by
    unfold memRow
    rw [if_pos hpos]
  obtain ⟨hy0, hy, hrr⟩ := flip_range image.m_height r hr0 hr
  rw [hpx r x hr0 hr hx0 hx, hm,
    colorAt_fileBytes image hw0 (image.m_height - 1 - r) x hy0 hy hx0 hx, hrr]

/-- Claim C1. For a well-formed buffer with width and height at least 1, sizes that
fit in `int` and all channels in `[0, 1]`, `LoadBMP` applied to the bytes written by
`SaveBMP` returns a buffer with the same width and height in which every channel of
every pixel differs from the original channel by at most `1/255`. -/
theorem LoadBMP_SaveBMP_roundtrip (image : Image) (hwf : image.WF)
    (hw : 1 ≤ image.width) (hh : 1 ≤ image.height)
    (hW : 3 * image.width + 3 < 2147483648)
    (hov : rowStride image.width * image.height < 2147483648)
    (hrange : ∀ c ∈ image.m_pixels,
      0 ≤ c.r ∧ c.r ≤ 1 ∧ 0 ≤ c.g ∧ c.g ≤ 1 ∧ 0 ≤ c.b ∧ c.b ≤ 1)
    (room : Nat) (hroom : 54 + (rowStride image.width * image.height).toNat ≤ room) :
    ∃ wr image2, SaveBMP image (.opened room) = .ok (true, wr)
      ∧ LoadBMP (.ofBytes wr.written) = .ok image2
      ∧ image2.width = image.width ∧ image2.height = image.height
      ∧ ∀ r x, 0 ≤ r → r < image.height → 0 ≤ x → x < image.width →
          ∃ c c2, image.getPixel r x = .ok c ∧ image2.getPixel r x = .ok c2
            ∧ |c2.r - c.r| ≤ 1 / 255 ∧ |c2.g - c.g| ≤ 1 / 255 ∧ |c2.b - c.b| ≤ 1 / 255 := by
  unfold Image.width Image.height at *
  have hsb := rowStride_bounds image.m_width
  have hwh : image.m_width * image.m_height ≤ rowStride image.m_width * image.m_height :=
    Int.mul_le_mul_of_nonneg_right (by omega) hwf.2.1
  have hov2 : image.m_width * image.m_height < 2147483648 := lt_of_le_of_lt hwh hov
  obtain ⟨image2, hrun, hw2, hh2, hlen2, hpx⟩ := LoadBMP_fileBytes image hwf hw hh hW hov
  have hwf2 : image2.WF := by
    refine ⟨by rw [hw2]; exact hwf.1, by rw [hh2]; exact hwf.2.1, ?_⟩
    rw [hw2, hh2]
    exact hlen2
  refine ⟨_, image2, SaveBMP_ok image hwf hW hov2 room hroom, hrun, hw2, hh2, ?_⟩
  intro r x hr0 hr hx0 hx
  have hmem := hrange _ (px_mem image hwf r x hr0 hr hx0 hx)
  refine ⟨image.px r x, image2.px r x, getPixel_ok image hwf hov2 r x hr0 hr hx0 hx,
    getPixel_ok image2 hwf2 (by rw [hw2, hh2]; exact hov2) r x hr0 (by rw [hh2]; exact hr) hx0
      (by rw [hw2]; exact hx), ?_⟩
  rw [hpx r x hr0 hr hx0 hx]
  exact ⟨quantize_error _ hmem.1 hmem.2.1, quantize_error _ hmem.2.2.1 hmem.2.2.2.1,
    quantize_error _ hmem.2.2.2.2.1 hmem.2.2.2.2.2⟩

/-! ## What `LoadBMP` and `SaveBMP` do not check -/

theorem byteAt_take_append (bs rest : List Byte) (n i : Nat) (hn : n ≤ bs.length) (hi : i < n) :
    byteAt (bs.take n ++ rest) i = byteAt bs i := by
  unfold byteAt
  rw [List.getD_eq_getElem?_getD, List.getD_eq_getElem?_getD,
    List.getElem?_append_left (by rw [List.length_take]; omega), List.getElem?_take_of_lt hi]

theorem drop_splice (bs z : List Byte) (hz : z.length = 4) (hlen : 54 ≤ bs.length) :
    (bs.take 30 ++ z ++ bs.drop 34).drop 54 = bs.drop 54 := by
  have hl : (bs.take 30 ++ z).length = 34 := by
    rw [List.length_append, List.length_take, hz]
    omega
  rw [List.drop_append_eq_append_drop, hl, List.drop_drop,
    List.drop_eq_nil_iff.mpr (by omega), List.nil_append]

/-- Claim C8, amended: `LoadBMP` does not read the compression field: for a byte
source of at least 54 bytes, whatever four bytes stand at offsets 30 to 33, the
result is the one for the same source with zeros there. -/
theorem LoadBMP_compression_ignored (bs : List Byte) (hlen : 54 ≤ bs.length) :
    LoadBMP (.ofBytes bs) = LoadBMP (.ofBytes (bs.take 30 ++ [0, 0, 0, 0] ++ bs.drop 34)) := by
  have hlen2 : 54 ≤ (bs.take 30 ++ [0, 0, 0, 0] ++ bs.drop 34).length := by
    simp only [List.length_append, List.length_take, List.length_drop, List.length_cons,
      List.length_nil]
    omega
  have hb : ∀ i, i < 30 →
      byteAt (bs.take 30 ++ [0, 0, 0, 0] ++ bs.drop 34) i = byteAt bs i := by
    intro i hi
    rw [List.append_assoc]
    exact byteAt_take_append bs _ 30 i (by omega) hi
  rw [LoadBMP_ofBytes bs hlen, LoadBMP_ofBytes _ hlen2, drop_splice bs [0, 0, 0, 0] rfl hlen]
  unfold i32At u32At u16At
  rw [hb 0 (by decide), hb (0 + 1) (by decide), hb 28 (by decide), hb (28 + 1) (by decide),
    hb 18 (by decide), hb (18 + 1) (by decide), hb (18 + 2) (by decide), hb (18 + 3) (by decide),
    hb 22 (by decide), hb (22 + 1) (by decide), hb (22 + 2) (by decide), hb (22 + 3) (by decide)]

/-- Counterexample to claim C8 as stated: a file whose compression field is 1 and
that is otherwise valid is decoded to a 1 by 1 image. -/
theorem LoadBMP_compressed_decodes :
    u32At compressedSource 30 = 1
      ∧ LoadBMP (.ofBytes compressedSource) = .ok ⟨[⟨1 / 5, 0, 1⟩], 1, 1⟩ :=
  ⟨by decide, by with_unfolding_all rfl⟩

/-- Witness of `LoadBMP_compression_ignored` (claim C8) at the file with compression
field 1. -/
theorem LoadBMP_compression_ignored_witness :
    LoadBMP (.ofBytes compressedSource)
      = LoadBMP (.ofBytes (compressedSource.take 30 ++ [0, 0, 0, 0] ++ compressedSource.drop 34)) :=
  LoadBMP_compression_ignored compressedSource (by decide)

/-- Claim C9, the code at failing sinks: with an opened sink that takes no byte, so
that the write of the header fails, and with one that takes 60 bytes, so that the
write of the first row fails, `SaveBMP` still returns `true`; the stream is left in
its failed state. -/
theorem SaveBMP_ignores_write_failure :
    SaveBMP sampleImage ⟨true, true, 0, []⟩ = .ok (true, ⟨true, false, 0, []⟩)
      ∧ SaveBMP sampleImage ⟨true, true, 60, []⟩
          = .ok (true, ⟨true, false, 0, (fileBytes sampleImage).take 60⟩) :=
  ⟨by with_unfolding_all rfl, by with_unfolding_all rfl⟩

/-- Claim C10, the code at a header of width -3: the row size is -4 and the
allocation of the row buffer throws, so `LoadBMP` does not return. -/
theorem LoadBMP_negative_width_throws :
    i32At negativeWidthSource 18 = -3 ∧ BMPHeader.rowSize (-3) = -4
      ∧ LoadBMP (.ofBytes negativeWidthSource) = .error .lengthError :=
  ⟨by with_unfolding_all rfl, by with_unfolding_all rfl, by with_unfolding_all rfl⟩

/-- Counterexample to claim C2 as stated: for the image of width 715827882 and
height 1 the row size overflows to a negative `int` and `SaveBMP` throws when it
allocates the row buffer. -/
theorem SaveBMP_wide_throws :
    wideImage.WF ∧ 1 ≤ wideImage.width ∧ 1 ≤ wideImage.height
      ∧ BMPHeader.rowSize wideImage.width = -2147483644
      ∧ SaveBMP wideImage (.opened 4294967296) = .error .lengthError :=
  ⟨⟨by decide, by decide, by
      show ((List.replicate 715827882 (Color.gray 0)).length : Int) = 715827882 * 1
      rw [List.length_replicate]
      rfl⟩, by decide, by decide,
    by with_unfolding_all rfl, by with_unfolding_all rfl⟩

/-- Counterexample to claim C5 as stated: the file of width 65536 and height 32768
holds all its pixel data, but the product of the two overflows `int` and the
allocation of the image throws. -/
theorem LoadBMP_overflow_throws :
    overflowSource[0]? = some 0x42 ∧ overflowSource[1]? = some 0x4D
      ∧ u16At overflowSource 28 = 24 ∧ i32At overflowSource 18 = 65536
      ∧ i32At overflowSource 22 = 32768
      ∧ 54 + rowStride 65536 * |32768| ≤ (overflowSource.length : Int)
      ∧ LoadBMP (.ofBytes overflowSource) = .error .lengthError :=
  ⟨by
      unfold overflowSource
      rw [List.getElem?_append_left (by decide)]
      decide, by
      unfold overflowSource
      rw [List.getElem?_append_left (by decide)]
      decide, by with_unfolding_all rfl,
    by with_unfolding_all rfl, by with_unfolding_all rfl,
    by
      unfold overflowSource
      rw [List.length_append, List.length_replicate]
      decide, by with_unfolding_all rfl⟩

/-- Claim C7, the code at a truncated file: the 54-byte source with a valid header of
width 65536 and height 32768 and no pixel data is shorter than its declared size,
but the product of the two sizes overflows `int` and the allocation of the image
throws before any row is read, so `LoadBMP` does not return the empty buffer. -/
theorem LoadBMP_overflow_header_throws :
    overflowHeader[0]? = some 0x42 ∧ overflowHeader[1]? = some 0x4D
      ∧ u16At overflowHeader 28 = 24 ∧ i32At overflowHeader 18 = 65536
      ∧ i32At overflowHeader 22 = 32768
      ∧ (overflowHeader.length : Int) < 54 + rowStride 65536 * |32768|
      ∧ LoadBMP (.ofBytes overflowHeader) = .error .lengthError :=
  ⟨by decide, by decide, by decide, by with_unfolding_all rfl, by with_unfolding_all rfl,
    by decide, by with_unfolding_all rfl⟩


/-- Witness of `LoadBMP_pixels` (claim C5): the top-down file of width 2 and height
field -3. -/
theorem LoadBMP_pixels_witness :
    ∃ image, LoadBMP (.ofBytes topDownSource) = .ok image ∧ image.width = 2
      ∧ image.height = |(-3 : Int)|
      ∧ ((0 : Int) < -3 → ∀ r x, 0 ≤ r → r < |(-3 : Int)| → 0 ≤ x → x < 2 →
          image.getPixel r x
            = .ok (colorAt topDownSource (54 + (|(-3 : Int)| - 1 - r) * rowStride 2 + 3 * x).toNat))
      ∧ ((-3 : Int) < 0 → ∀ r x, 0 ≤ r → r < |(-3 : Int)| → 0 ≤ x → x < 2 →
          image.getPixel r x = .ok (colorAt topDownSource (54 + r * rowStride 2 + 3 * x).toNat)) :=
  LoadBMP_pixels topDownSource 2 (-3) (by decide) (by decide) (by decide)
    (by with_unfolding_all rfl) (by with_unfolding_all rfl) (by decide) (by decide) (by decide)
    (by decide) (by decide)

/-- The lemma `LoadBMP_truncated` at a file of width 2 and height 2 that holds 64 of
its 70 bytes. -/
theorem LoadBMP_truncated_witness :
    (truncatedSource.length : Int) < 54 + rowStride 2 * |(2 : Int)|
      ∧ LoadBMP (.ofBytes truncatedSource) = .ok ⟨[], 0, 0⟩ :=
  ⟨by decide, LoadBMP_truncated truncatedSource 2 2 (by decide) (by decide) (by decide)
    (by decide) (by with_unfolding_all rfl) (by with_unfolding_all rfl) (by decide) (by decide)
    (by decide) (by decide) (by decide)⟩

/-- Witness of `LoadBMP_SaveBMP_roundtrip` (claim C1) at a 2 by 2 image with all
channels in `[0, 1]`. -/
theorem LoadBMP_SaveBMP_roundtrip_witness :
    sampleInRange.WF ∧ ∃ wr image2, SaveBMP sampleInRange (.opened 100) = .ok (true, wr)
      ∧ LoadBMP (.ofBytes wr.written) = .ok image2
      ∧ image2.width = sampleInRange.width ∧ image2.height = sampleInRange.height
      ∧ ∀ r x, 0 ≤ r → r < sampleInRange.height → 0 ≤ x → x < sampleInRange.width →
          ∃ c c2, sampleInRange.getPixel r x = .ok c ∧ image2.getPixel r x = .ok c2
            ∧ |c2.r - c.r| ≤ 1 / 255 ∧ |c2.g - c.g| ≤ 1 / 255 ∧ |c2.b - c.b| ≤ 1 / 255 :=
  ⟨by decide, LoadBMP_SaveBMP_roundtrip sampleInRange (by decide) (by decide) (by decide)
    (by decide) (by decide) (by decide!) 100 (by decide)⟩



/-! ## Size and padding of the written file -/

theorem byte_of_u16At (bs : List Byte) (i v : Nat) (hlen : i < bs.length) (hv : v < 256)
    (h : u16At bs i = v) : bs[i]? = some ⟨v, hv⟩ := by
  have hb0 := byteAt_lt bs i
  have hb1 := byteAt_lt bs (i + 1)
  have h1 : byteAt bs i + 256 * byteAt bs (i + 1) = v := h
  exact getElem?_of_byteAt bs i v hlen hv (by omega)

theorem fileBytes_length_int (image : Image) (hw0 : 0 ≤ image.m_width)
    (hh0 : 0 ≤ image.m_height) :
    ((fileBytes image).length : Int) = 54 + rowStride image.m_width * image.m_height := by
  have hsb := rowStride_bounds image.m_width
  have hmul := toNat_mul (rowStride image.m_width) image.m_height (by omega) hh0
  have hprod : 0 ≤ rowStride image.m_width * image.m_height :=
    Int.mul_nonneg (by omega) hh0
  rw [fileBytes_length image hw0]
  omega

/-- Claim C11. For a buffer of width `w ≥ 0` and height `h ≥ 0` whose sizes fit in
`int`, a `SaveBMP` whose writes all succeed writes exactly `54 + rowStride * h`
bytes, which is also the value of the 32-bit field at offset 2; bytes 0 and 1 are
`0x42, 0x4D` and byte 28 is 24; for a 1 by 1 buffer the file has 58 bytes. -/
theorem SaveBMP_size (image : Image) (hwf : image.WF)
    (hW : 3 * image.width + 3 < 2147483648)
    (hov : rowStride image.width * image.height < 2147483648)
    (hH : image.height < 2147483648) (room : Nat)
    (hroom : 54 + (rowStride image.width * image.height).toNat ≤ room) :
    ∃ wr, SaveBMP image (.opened room) = .ok (true, wr) ∧ wr.good = true
      ∧ (wr.written.length : Int) = 54 + rowStride image.width * image.height
      ∧ (u32At wr.written 2 : Int) = (wr.written.length : Int)
      ∧ wr.written[0]? = some 0x42 ∧ wr.written[1]? = some 0x4D
      ∧ wr.written[28]? = some 24
      ∧ (image.width = 1 → image.height = 1 → wr.written.length = 58) := by
  unfold Image.width Image.height at *
  obtain ⟨hw0, hh0, hlen⟩ := hwf
  have hsb := rowStride_bounds image.m_width
  have hprod : 0 ≤ rowStride image.m_width * image.m_height :=
    Int.mul_nonneg (by omega) hh0
  have hprod54 : 0 ≤ 54 + rowStride image.m_width * image.m_height := by omega
  have hwh : image.m_width * image.m_height ≤ rowStride image.m_width * image.m_height :=
    Int.mul_le_mul_of_nonneg_right (by omega) hh0
  have hov2 : image.m_width * image.m_height < 2147483648 := lt_of_le_of_lt hwh hov
  have hlenI := fileBytes_length_int image hw0 hh0
  have hlen54 : 54 ≤ (fileBytes image).length := by omega
  have h58 : image.m_width = 1 → image.m_height = 1 → (fileBytes image).length = 58 := by
    intro h1 h2
    rw [h1, h2] at hlenI
    have : rowStride 1 = 4 := by decide
    rw [this] at hlenI
    omega
  have hsave := SaveBMP_ok image ⟨hw0, hh0, hlen⟩ hW hov2 room hroom
  have hof : BMPHeader.ofBytes (fileBytes image) = _ :=
    ofBytes_Make image.m_width image.m_height hw0 hh0 hW hov hH (pixelData image)
  unfold BMPHeader.ofBytes BMPHeader.init at hof
  rw [BMPHeader.mk.injEq] at hof
  obtain ⟨f1, f2, -, -, -, -, -, -, -, f10, -⟩ := hof
  dsimp only at f1 f2 f10
  have hmagic := magic_of_u16At (fileBytes image) (le_trans (by decide) hlen54) f1
  have h28 := byte_of_u16At (fileBytes image) 28 24 (lt_of_lt_of_le (by decide) hlen54)
    (by decide) f10
  refine ⟨_, hsave, rfl, hlenI, ?_, hmagic.1, hmagic.2, h28, h58⟩
  show (u32At (fileBytes image) 2 : Int) = ((fileBytes image).length : Int)
  rw [f2, hlenI]
  exact Int.toNat_of_nonneg hprod54

/-- Witness of `SaveBMP_size` (claim C11) at a 1 by 1 image. -/
theorem SaveBMP_size_witness :
    sample1x1.WF ∧ ∃ wr, SaveBMP sample1x1 (.opened 58) = .ok (true, wr) ∧ wr.good = true
      ∧ (wr.written.length : Int) = 54 + rowStride sample1x1.width * sample1x1.height
      ∧ (u32At wr.written 2 : Int) = (wr.written.length : Int)
      ∧ wr.written[0]? = some 0x42 ∧ wr.written[1]? = some 0x4D
      ∧ wr.written[28]? = some 24
      ∧ (sample1x1.width = 1 → sample1x1.height = 1 → wr.written.length = 58) :=
  ⟨by decide, SaveBMP_size sample1x1 (by decide) (by decide) (by decide) (by decide) 58
    (by decide)⟩

/-- Claim C12, amended: encoding a buffer of width 2 and height 1 produces a file
of exactly `54 + 8 = 62` bytes, the row stride of width 2 being 8. -/
theorem SaveBMP_size_2x1 (image : Image) (hwf : image.WF) (hw : image.width = 2)
    (hh : image.height = 1) (room : Nat) (hroom : 62 ≤ room) :
    ∃ wr, SaveBMP image (.opened room) = .ok (true, wr) ∧ wr.good = true
      ∧ wr.written.length = 62 := by
  unfold Image.width Image.height at *
  have hrs : rowStride image.m_width = 8 := by rw [hw]; decide
  have hlenI := fileBytes_length_int image hwf.1 hwf.2.1
  rw [hrs, hh] at hlenI
  refine ⟨_, SaveBMP_ok image hwf (by rw [hw]; decide) (by rw [hw, hh]; decide) room
    (by rw [hrs, hh]; exact hroom), rfl, ?_⟩
  show (fileBytes image).length = 62
  omega

/-- Counterexample to claim C12 as stated: the file written for an image of width 2
and height 1 has 62 bytes, not 58. -/
theorem SaveBMP_2x1_not_58 :
    sample2x1.width = 2 ∧ sample2x1.height = 1
      ∧ SaveBMP sample2x1 (.opened 100) = .ok (true, ⟨true, true, 38, fileBytes sample2x1⟩)
      ∧ (fileBytes sample2x1).length = 62 ∧ (fileBytes sample2x1).length ≠ 58 :=
  ⟨rfl, rfl, by with_unfolding_all rfl, by with_unfolding_all rfl, by with_unfolding_all decide⟩

/-- Witness of `SaveBMP_size_2x1` (claim C12) at an image of width 2 and height 1. -/
theorem SaveBMP_size_2x1_witness :
    sample2x1.WF ∧ ∃ wr, SaveBMP sample2x1 (.opened 62) = .ok (true, wr) ∧ wr.good = true
      ∧ wr.written.length = 62 :=
  ⟨by decide, SaveBMP_size_2x1 sample2x1 (by decide) rfl rfl 62 (by decide)⟩

/-- Claim C13, amended by the `int` range of the sizes: for a buffer of width
`w ≥ 1` and height `h ≥ 1` with `3 * w + 3` and `w * h` below `2^31`, and every
stored row `0 ≤ y < h`, every byte of the output of `SaveBMP` at an offset
`54 + y * rowStride + k` with `3 * w ≤ k < rowStride` is 0; for width 1 the row
stride is 4 and the byte at `54 + 4 * y + 3` is 0. -/
theorem SaveBMP_padding (image : Image) (hwf : image.WF)
    (hw : 1 ≤ image.width) (hh : 1 ≤ image.height)
    (hW : 3 * image.width + 3 < 2147483648)
    (hov : image.width * image.height < 2147483648) (room : Nat)
    (hroom : 54 + (rowStride image.width * image.height).toNat ≤ room)
    (y : Int) (hy0 : 0 ≤ y) (hy : y < image.height) :
    ∃ wr, SaveBMP image (.opened room) = .ok (true, wr)
      ∧ (∀ k : Int, 3 * image.width ≤ k → k < rowStride image.width →
          wr.written[(54 + y * rowStride image.width + k).toNat]? = some 0)
      ∧ (image.width = 1 → rowStride image.width = 4
          ∧ wr.written[(54 + 4 * y + 3).toNat]? = some 0) := by
  unfold Image.width Image.height at *
  have _hh := hh
  have hw0 : 0 ≤ image.m_width := by omega
  have hsb := rowStride_bounds image.m_width
  have hprod : 0 ≤ y * rowStride image.m_width := Int.mul_nonneg hy0 (by omega)
  have hpad : ∀ k : Int, 3 * image.m_width ≤ k → k < rowStride image.m_width →
      (fileBytes image)[(54 + y * rowStride image.m_width + k).toNat]? = some 0 := by
    intro k hk0 hk
    have e : (54 + y * rowStride image.m_width + k).toNat
        = (54 + y * rowStride image.m_width).toNat + k.toNat := by omega
    rw [e, fileBytes_row image hw0 y hy0 hy _ (by omega),
      rowBytes_padding image hw0 _ _ (by omega) (by omega)]
  refine ⟨_, SaveBMP_ok image hwf hW hov room hroom, hpad, ?_⟩
  intro h1
  have hrs : rowStride image.m_width = 4 := by rw [h1]; decide
  refine ⟨hrs, ?_⟩
  have h3 := hpad 3 (by omega) (by omega)
  rw [hrs, Int.mul_comm y 4] at h3
  exact h3

/-- Counterexample to claim C13 as stated: the image of width 715827882 and height 1
has two padding bytes per row, but its row size overflows `int` and `SaveBMP` throws
before any row is written. -/
theorem SaveBMP_wide_no_padding :
    wideImage.WF ∧ 1 ≤ wideImage.width ∧ 1 ≤ wideImage.height
      ∧ 3 * wideImage.width < rowStride wideImage.width
      ∧ SaveBMP wideImage (.opened 4294967296) = .error .lengthError :=
  ⟨⟨by decide, by decide, by
      show ((List.replicate 715827882 (Color.gray 0)).length : Int) = 715827882 * 1
      rw [List.length_replicate]
      rfl⟩, by decide, by decide, by decide, by with_unfolding_all rfl⟩

/-- Witness of `SaveBMP_padding` (claim C13): the stored row 1 of an image of width 1
and height 2. -/
theorem SaveBMP_padding_witness :
    ∃ wr, SaveBMP sample1x2 (.opened 62) = .ok (true, wr)
      ∧ (∀ k : Int, 3 * sample1x2.width ≤ k → k < rowStride sample1x2.width →
          wr.written[(54 + 1 * rowStride sample1x2.width + k).toNat]? = some 0)
      ∧ (sample1x2.width = 1 → rowStride sample1x2.width = 4
          ∧ wr.written[(54 + 4 * (1 : Int) + 3).toNat]? = some 0) :=
  SaveBMP_padding sample1x2 (by decide) (by decide) (by decide) (by decide) (by decide) 62
    (by decide) 1 (by decide) (by decide)


/-! ## The pixel buffer -/

theorem inBounds_iff (image : Image) (y x : Int) :
    image.inBounds y x = true
      ↔ 0 ≤ y ∧ y < image.m_height ∧ 0 ≤ x ∧ x < image.m_width := by
  unfold Image.inBounds
  simp only [Bool.and_eq_true, decide_eq_true_eq]
  tauto

theorem getPixel_outside (image : Image) (y x : Int)
    (h : ¬ (0 ≤ y ∧ y < image.m_height ∧ 0 ≤ x ∧ x < image.m_width)) :
    image.getPixel y x = .ok ⟨0, 0, 0⟩ := by
  have hb : image.inBounds y x = false := by
    rw [← Bool.not_eq_true, inBounds_iff]
    exact h
  unfold Image.getPixel
  rw [hb]
  rfl

theorem setPixel_outside (image : Image) (y x : Int) (c : Color)
    (h : ¬ (0 ≤ y ∧ y < image.m_height ∧ 0 ≤ x ∧ x < image.m_width)) :
    image.setPixel y x c = .ok image := by
  have hb : image.inBounds y x = false := by
    rw [← Bool.not_eq_true, inBounds_iff]
    exact h
  unfold Image.setPixel
  rw [hb]
  rfl

theorem setPixel_inside (image : Image) (hwf : image.WF)
    (hov : image.m_width * image.m_height < 2147483648) (y x : Int) (c : Color)
    (hy0 : 0 ≤ y) (hy : y < image.m_height) (hx0 : 0 ≤ x) (hx : x < image.m_width) :
    image.setPixel y x c
      = .ok { image with m_pixels := (image.m_pixels.set (y * image.m_width + x).toNat c) } := by
  obtain ⟨hw0, hh0, hlen⟩ := hwf
  have hi := index_bounds y x image.m_width image.m_height hy0 hy hx0 hx
  have hb : image.inBounds y x = true := (inBounds_iff image y x).mpr ⟨hy0, hy, hx0, hx⟩
  unfold Image.setPixel
  rw [hb]
  simp only [Bool.not_true, Bool.false_eq_true, if_false]
  unfold iadd imul
  rw [wrap32_of_range (y * image.m_width) (by omega) (by omega)]
  rw [wrap32_of_range _ (by omega) (by omega)]
  unfold Image.setPixelAt
  rw [if_pos (by omega)]

/-- Claim C14. For all integers `width`, `height` and every fill colour, if
`width ≤ 0` or `height ≤ 0` then `Image(width, height, fill)` is the empty buffer:
`width()` and `height()` are 0, `numPixels()` is 0 and `isEmpty()` is true. -/
theorem create_empty (width height : Int) (fill : Color) (h : width ≤ 0 ∨ height ≤ 0) :
    ∃ image, Image.create width height fill = .ok image ∧ image = ⟨[], 0, 0⟩
      ∧ image.width = 0 ∧ image.height = 0 ∧ image.numPixels = 0
      ∧ image.isEmpty = true := by
  refine ⟨Image.empty, ?_, rfl, rfl, rfl, ?_, rfl⟩
  · unfold Image.create
    rw [if_pos h]
  · unfold Image.numPixels
    exact wrap32_of_range 0 (by decide) (by decide)

/-- Witness of `create_empty` (claim C14) at the sizes (0, 5), (5, 0) and (-1, -1). -/
theorem create_empty_witness :
    (∃ image, Image.create 0 5 (Color.gray 1) = .ok image ∧ image = ⟨[], 0, 0⟩
      ∧ image.width = 0 ∧ image.height = 0 ∧ image.numPixels = 0 ∧ image.isEmpty = true)
    ∧ (∃ image, Image.create 5 0 (Color.gray 1) = .ok image ∧ image = ⟨[], 0, 0⟩
      ∧ image.width = 0 ∧ image.height = 0 ∧ image.numPixels = 0 ∧ image.isEmpty = true)
    ∧ (∃ image, Image.create (-1) (-1) (Color.gray 1) = .ok image ∧ image = ⟨[], 0, 0⟩
      ∧ image.width = 0 ∧ image.height = 0 ∧ image.numPixels = 0 ∧ image.isEmpty = true) :=
  ⟨create_empty 0 5 (Color.gray 1) (Or.inl (by decide)),
    create_empty 5 0 (Color.gray 1) (Or.inr (by decide)),
    create_empty (-1) (-1) (Color.gray 1) (Or.inl (by decide))⟩

theorem create_WF (w h : Int) (c : Color) (hw : 1 ≤ w) (hh : 1 ≤ h)
    (hov : w * h < 2147483648) :
    (Image.mk (List.replicate (w * h).toNat c) w h).WF := by
  have hpos : 0 ≤ w * h := Int.mul_nonneg (by omega) (by omega)
  refine ⟨?_, ?_, ?_⟩
  · show 0 ≤ w
    omega
  · show 0 ≤ h
    omega
  show ((List.replicate (w * h).toNat c).length : Int) = w * h
  rw [List.length_replicate]
  omega

theorem px_replicate (n : Nat) (w h : Int) (c : Color) (r x : Int)
    (hi : (r * w + x).toNat < n) :
    (Image.mk (List.replicate n c) w h).px r x = c := by
  unfold Image.px
  show (List.replicate n c).getD (r * w + x).toNat (Color.gray 0) = c
  rw [List.getD_eq_getElem?_getD, List.getElem?_replicate, if_pos hi]
  rfl

theorem getPixel_create (w h : Int) (c : Color) (hw : 1 ≤ w) (hh : 1 ≤ h)
    (hov : w * h < 2147483648) (y x : Int) (hy0 : 0 ≤ y) (hy : y < h) (hx0 : 0 ≤ x)
    (hx : x < w) :
    (Image.mk (List.replicate (w * h).toNat c) w h).getPixel y x = .ok c := by
  have hi := index_bounds y x w h hy0 hy hx0 hx
  rw [getPixel_ok _ (create_WF w h c hw hh hov) hov y x hy0 hy hx0 hx,
    px_replicate _ w h c y x (by omega)]

/-- Claim C15. For all `width ≥ 1`, `height ≥ 1` with `width * height` in the `int`
range and every colour `c`, `Image(width, height, c)` has `width() = width`,
`height() = height`, `numPixels() = width * height` and `getPixel(y, x) = c` at
every position in bounds; with the colour omitted every pixel is white `(1, 1, 1)`. -/
theorem create_filled (width height : Int) (c : Color) (hw : 1 ≤ width) (hh : 1 ≤ height)
    (hov : width * height < 2147483648) :
    (∃ image, Image.create width height c = .ok image ∧ image.width = width
      ∧ image.height = height ∧ image.numPixels = width * height
      ∧ ∀ y x, 0 ≤ y → y < height → 0 ≤ x → x < width → image.getPixel y x = .ok c)
    ∧ (∃ image, Image.create2 width height = .ok image
      ∧ ∀ y x, 0 ≤ y → y < height → 0 ≤ x → x < width →
          image.getPixel y x = .ok ⟨1, 1, 1⟩) := by
  have hpos : 0 ≤ width * height := Int.mul_nonneg (by omega) (by omega)
  constructor
  · refine ⟨_, create_ok width height c hw hh hov, rfl, rfl, ?_, ?_⟩
    · unfold Image.numPixels
      show wrap32 ((List.replicate (width * height).toNat c).length : Int) = width * height
      rw [List.length_replicate, wrap32_of_range _ (by omega) (by omega)]
      omega
    · intro y x hy0 hy hx0 hx
      exact getPixel_create width height c hw hh hov y x hy0 hy hx0 hx
  · refine ⟨_, create_ok width height (Color.gray 1) hw hh hov, ?_⟩
    intro y x hy0 hy hx0 hx
    exact getPixel_create width height (Color.gray 1) hw hh hov y x hy0 hy hx0 hx

/-- Witness of `create_filled` (claim C15) at width 400 and height 300. -/
theorem create_filled_witness :
    (∃ image, Image.create 400 300 ⟨4 / 5, 9 / 10, 1⟩ = .ok image ∧ image.width = 400
      ∧ image.height = 300 ∧ image.numPixels = 400 * 300
      ∧ ∀ y x, 0 ≤ y → y < 300 → 0 ≤ x → x < 400 →
          image.getPixel y x = .ok ⟨4 / 5, 9 / 10, 1⟩)
    ∧ (∃ image, Image.create2 400 300 = .ok image
      ∧ ∀ y x, 0 ≤ y → y < 300 → 0 ≤ x → x < 400 → image.getPixel y x = .ok ⟨1, 1, 1⟩) :=
  create_filled 400 300 ⟨4 / 5, 9 / 10, 1⟩ (by decide) (by decide) (by decide)

/-- Claim C16. For a buffer with `pixels.length = width * height`, the pixel count
being an `int` value, and all integers `row`, `col`: `getPixel(row, col)` returns
`(0, 0, 0)` when the position is not in bounds, and otherwise the index
`row * width + col` lies below `pixels.length` and the pixel at that index is returned,
so the read is never outside the vector. -/
theorem getPixel_bounds_safe (image : Image)
    (hlen : (image.m_pixels.length : Int) = image.width * image.height)
    (hsmall : image.m_pixels.length < 2147483648) (row col : Int) :
    (¬ (0 ≤ row ∧ row < image.height ∧ 0 ≤ col ∧ col < image.width) →
        image.getPixel row col = .ok ⟨0, 0, 0⟩)
    ∧ ((0 ≤ row ∧ row < image.height ∧ 0 ≤ col ∧ col < image.width) →
        0 ≤ row * image.width + col
        ∧ row * image.width + col < image.m_pixels.length
        ∧ ∃ c, image.m_pixels[(row * image.width + col).toNat]? = some c
            ∧ image.getPixel row col = .ok c) := by
  unfold Image.width Image.height at *
  constructor
  · exact getPixel_outside image row col
  · rintro ⟨hr0, hr, hc0, hc⟩
    have hi := index_bounds row col image.m_width image.m_height hr0 hr hc0 hc
    have hwf : image.WF := ⟨by omega, by omega, hlen⟩
    have hlt : (row * image.m_width + col).toNat < image.m_pixels.length := by omega
    refine ⟨by omega, by omega, image.m_pixels[(row * image.m_width + col).toNat], ?_, ?_⟩
    · exact List.getElem?_eq_getElem hlt
    · rw [getPixel_ok image hwf (by omega) row col hr0 hr hc0 hc]
      unfold Image.px
      rw [List.getD_eq_getElem?_getD, List.getElem?_eq_getElem hlt]
      rfl

/-- Witness of `getPixel_bounds_safe` (claim C16) at the 2 by 2 sample image, row 1
and column 1. -/
theorem getPixel_bounds_safe_witness :
    (¬ (0 ≤ (1 : Int) ∧ 1 < sampleImage.height ∧ 0 ≤ (1 : Int) ∧ 1 < sampleImage.width) →
        sampleImage.getPixel 1 1 = .ok ⟨0, 0, 0⟩)
    ∧ ((0 ≤ (1 : Int) ∧ 1 < sampleImage.height ∧ 0 ≤ (1 : Int) ∧ 1 < sampleImage.width) →
        0 ≤ 1 * sampleImage.width + 1
        ∧ 1 * sampleImage.width + 1 < sampleImage.m_pixels.length
        ∧ ∃ c, sampleImage.m_pixels[(1 * sampleImage.width + 1).toNat]? = some c
            ∧ sampleImage.getPixel 1 1 = .ok c) :=
  getPixel_bounds_safe sampleImage (by decide) (by decide) 1 1

/-! ## Writing a pixel and viewing a row -/


/-- Claim C17. For a buffer that satisfies the class invariant, the pixel count
being an `int` value, a colour `c` and integers `row`, `col`: if the position is out
of bounds, `setPixel(row, col, c)` leaves the buffer as it was; if it is in bounds,
then afterwards `getPixel(row, col)` is `c`, every other position reads as before,
and the width and the height are unchanged. -/
theorem setPixel_frame (image : Image) (hwf : image.WF)
    (hsmall : image.m_pixels.length < 2147483648) (row col : Int) (c : Color) :
    (¬ (0 ≤ row ∧ row < image.height ∧ 0 ≤ col ∧ col < image.width) →
        image.setPixel row col c = .ok image)
    ∧ ((0 ≤ row ∧ row < image.height ∧ 0 ≤ col ∧ col < image.width) →
        ∃ image2, image.setPixel row col c = .ok image2
          ∧ image2.width = image.width ∧ image2.height = image.height
          ∧ image2.getPixel row col = .ok c
          ∧ ∀ r x, ¬ (r = row ∧ x = col) → image2.getPixel r x = image.getPixel r x) := by
  unfold Image.width Image.height at *
  constructor
  · exact setPixel_outside image row col c
  · rintro ⟨hr0, hr, hc0, hc⟩
    have hwf0 := hwf
    obtain ⟨hw0, hh0, hlen⟩ := hwf
    have hov : image.m_width * image.m_height < 2147483648 := by omega
    have hi := index_bounds row col image.m_width image.m_height hr0 hr hc0 hc
    have hlt : (row * image.m_width + col).toNat < image.m_pixels.length := by omega
    have hwf2 : Image.WF { image with
        m_pixels := (image.m_pixels.set (row * image.m_width + col).toNat c) } := by
      refine ⟨hw0, hh0, ?_⟩
      show ((image.m_pixels.set (row * image.m_width + col).toNat c).length : Int) = _
      rw [List.length_set]
      exact hlen
    refine ⟨_, setPixel_inside image hwf0 hov row col c hr0 hr hc0 hc, rfl, rfl, ?_, ?_⟩
    · rw [getPixel_ok _ hwf2 hov row col hr0 hr hc0 hc, px_set image _ c row col hlt,
        if_pos rfl]
    · intro r x hne
      by_cases hin : 0 ≤ r ∧ r < image.m_height ∧ 0 ≤ x ∧ x < image.m_width
      · obtain ⟨h1, h2, h3, h4⟩ := hin
        have hi2 := index_bounds r x image.m_width image.m_height h1 h2 h3 h4
        rw [getPixel_ok _ hwf2 hov r x h1 h2 h3 h4, getPixel_ok image hwf0 hov r x h1 h2 h3 h4,
          px_set image _ c r x hlt]
        have hidx : ¬ ((row * image.m_width + col).toNat = (r * image.m_width + x).toNat) := by
          intro he
          exact hne (index_inj image.m_width r row col x hc0 hc h3 h4 (by omega))
        rw [if_neg hidx]
      · rw [getPixel_outside image r x hin]
        exact getPixel_outside _ r x hin

/-- Witness of `setPixel_frame` (claim C17) at the 2 by 2 sample image, row 1 and
column 0. -/
theorem setPixel_frame_witness :
    (¬ (0 ≤ (1 : Int) ∧ 1 < sampleImage.height ∧ 0 ≤ (0 : Int) ∧ 0 < sampleImage.width) →
        sampleImage.setPixel 1 0 (Color.gray 1) = .ok sampleImage)
    ∧ ((0 ≤ (1 : Int) ∧ 1 < sampleImage.height ∧ 0 ≤ (0 : Int) ∧ 0 < sampleImage.width) →
        ∃ image2, sampleImage.setPixel 1 0 (Color.gray 1) = .ok image2
          ∧ image2.width = sampleImage.width ∧ image2.height = sampleImage.height
          ∧ image2.getPixel 1 0 = .ok (Color.gray 1)
          ∧ ∀ r x, ¬ (r = 1 ∧ x = 0) → image2.getPixel r x = sampleImage.getPixel r x) :=
  setPixel_frame sampleImage (by decide) (by decide) 1 0 (Color.gray 1)

theorem row_ok (image : Image) (hw0 : 0 ≤ image.m_width)
    (hov : image.m_width * image.m_height < 2147483648) (y : Int) (hy0 : 0 ≤ y)
    (hy : y < image.m_height) :
    image.row y = .ok ⟨y * image.m_width, image.m_width⟩ := by
  unfold Image.row imul
  rw [if_pos ⟨hy0, hy⟩]
  have h1 : 0 ≤ y * image.m_width := Int.mul_nonneg hy0 hw0
  have h2 : y * image.m_width ≤ image.m_height * image.m_width :=
    Int.mul_le_mul_of_nonneg_right (by omega) hw0
  have h3 : image.m_height * image.m_width = image.m_width * image.m_height :=
    Int.mul_comm _ _
  rw [wrap32_of_range _ (by omega) (by omega)]

theorem rows_disjoint (w y y2 : Int) (hw0 : 0 ≤ w) (hne : y2 ≠ y) :
    y * w + w ≤ y2 * w ∨ y2 * w + w ≤ y * w := by
  rcases lt_or_gt_of_ne hne with hlt | hgt
  · right
    have h1 : (y2 + 1) * w ≤ y * w := Int.mul_le_mul_of_nonneg_right (by omega) hw0
    have h2 : (y2 + 1) * w = y2 * w + w := by ring
    omega
  · left
    have h1 : (y + 1) * w ≤ y2 * w := Int.mul_le_mul_of_nonneg_right (by omega) hw0
    have h2 : (y + 1) * w = y * w + w := by ring
    omega

/-- Claim C18. For a buffer that satisfies the class invariant, the pixel count
being an `int` value, and a row index `0 ≤ y < height`: `row(y)` is a view of exactly
`width` colours that starts at index `y * width` and lies inside the pixel array, its
element `x` is `getPixel(y, x)` for every `0 ≤ x < width`, and the views of two
distinct rows cover disjoint index ranges. -/
theorem row_view (image : Image) (hwf : image.WF)
    (hsmall : image.m_pixels.length < 2147483648) (y : Int) (hy0 : 0 ≤ y)
    (hy : y < image.height) :
    ∃ s, image.row y = .ok s ∧ s.extent = image.width ∧ s.start = y * image.width
      ∧ 0 ≤ s.start ∧ s.start + s.extent ≤ image.m_pixels.length
      ∧ (∀ x, 0 ≤ x → x < image.width →
          ∃ c, image.spanGet s x = .ok c ∧ image.getPixel y x = .ok c)
      ∧ (∀ y2 s2, 0 ≤ y2 → y2 < image.height → y2 ≠ y → image.row y2 = .ok s2 →
          s.start + s.extent ≤ s2.start ∨ s2.start + s2.extent ≤ s.start) := by
  unfold Image.width Image.height at *
  have hwf0 := hwf
  obtain ⟨hw0, hh0, hlen⟩ := hwf
  have hov : image.m_width * image.m_height < 2147483648 := by omega
  have hy1 : (y + 1) * image.m_width ≤ image.m_height * image.m_width :=
    Int.mul_le_mul_of_nonneg_right (by omega) hw0
  have hy2 : (y + 1) * image.m_width = y * image.m_width + image.m_width := by ring
  have hy3 : image.m_height * image.m_width = image.m_width * image.m_height :=
    Int.mul_comm _ _
  have hy4 : 0 ≤ y * image.m_width := Int.mul_nonneg hy0 hw0
  refine ⟨_, row_ok image hw0 hov y hy0 hy, rfl, rfl, hy4, ?_, ?_, ?_⟩
  · show y * image.m_width + image.m_width ≤ _
    omega
  · intro x hx0 hx
    have hi := index_bounds y x image.m_width image.m_height hy0 hy hx0 hx
    have hlt : (y * image.m_width + x).toNat < image.m_pixels.length := by omega
    refine ⟨image.px y x, ?_, getPixel_ok image hwf0 hov y x hy0 hy hx0 hx⟩
    unfold Image.spanGet
    rw [if_pos ⟨hx0, hx⟩]
    show image.pixelAt (y * image.m_width + x) = .ok (image.px y x)
    unfold Image.pixelAt Image.px
    rw [if_pos (by omega), List.getElem?_eq_getElem hlt, List.getD_eq_getElem?_getD,
      List.getElem?_eq_getElem hlt]
    rfl
  · intro y2 s2 hy20 hy2 hne hrow
    rw [row_ok image hw0 hov y2 hy20 hy2] at hrow
    injection hrow with hs
    rw [← hs]
    exact rows_disjoint image.m_width y y2 hw0 hne

/-- Witness of `row_view` (claim C18) at row 1 of the 2 by 2 sample image. -/
theorem row_view_witness :
    ∃ s, sampleImage.row 1 = .ok s ∧ s.extent = sampleImage.width
      ∧ s.start = 1 * sampleImage.width
      ∧ 0 ≤ s.start ∧ s.start + s.extent ≤ sampleImage.m_pixels.length
      ∧ (∀ x, 0 ≤ x → x < sampleImage.width →
          ∃ c, sampleImage.spanGet s x = .ok c ∧ sampleImage.getPixel 1 x = .ok c)
      ∧ (∀ y2 s2, 0 ≤ y2 → y2 < sampleImage.height → y2 ≠ 1 → sampleImage.row y2 = .ok s2 →
          s.start + s.extent ≤ s2.start ∨ s2.start + s2.extent ≤ s.start) :=
  row_view sampleImage (by decide) (by decide) 1 (by decide) (by decide)

/-! ## The Manhattan distance of a point -/

theorem wrap64_of_range (v : Int) (h0 : -9223372036854775808 ≤ v)
    (h1 : v < 9223372036854775808) : wrap64 v = v := by
  unfold wrap64
  omega

/-- The function `manhattanDistance` on components above `INT_MIN`: it is
`|x| + |y|`. -/
theorem manhattanDistance_eq (p : Point) (hx : -2147483648 < p.x) (hx1 : p.x < 2147483648)
    (hy : -2147483648 < p.y) (hy1 : p.y < 2147483648) :
    p.manhattanDistance = |p.x| + |p.y| := by
  have ex : (if p.x < 0 then wrap32 (-p.x) else p.x) = |p.x| := iabs_eq p.x hx hx1
  have ey : (if p.y < 0 then wrap32 (-p.y) else p.y) = |p.y| := iabs_eq p.y hy hy1
  unfold Point.manhattanDistance
  simp only [ex, ey]
  have h1 : 0 ≤ |p.x| := abs_nonneg _
  have h2 : 0 ≤ |p.y| := abs_nonneg _
  have h3 : |p.x| < 2147483648 := abs_lt.mpr ⟨by omega, hx1⟩
  have h4 : |p.y| < 2147483648 := abs_lt.mpr ⟨by omega, hy1⟩
  exact wrap64_of_range _ (by omega) (by omega)

/-- Claim C19, the code at the point `(INT_MIN, 0)`: the negation is taken in `int`
before the widening, so it wraps back to `INT_MIN` and `manhattanDistance()` returns
`-2147483648`, while `|x| + |y|` is `2147483648`. -/
theorem manhattanDistance_int_min :
    Point.manhattanDistance ⟨-2147483648, 0⟩ = -2147483648
      ∧ |(-2147483648 : Int)| + |(0 : Int)| = 2147483648 :=
  ⟨by with_unfolding_all rfl, by decide⟩

/-! ## The class invariant -/

theorem empty_WF : Image.empty.WF := by decide

theorem setPixel_WF (image image2 : Image) (y x : Int) (c : Color) (hwf : image.WF)
    (h : image.setPixel y x c = .ok image2) : image2.WF := by
  unfold Image.setPixel at h
  by_cases hb : image.inBounds y x = true
  · rw [hb] at h
    simp only [Bool.not_true, Bool.false_eq_true, if_false] at h
    unfold Image.setPixelAt at h
    split at h
    · injection h with h2
      rw [← h2]
      refine ⟨hwf.1, hwf.2.1, ?_⟩
      show ((image.m_pixels.set _ c).length : Int) = _
      rw [List.length_set]
      exact hwf.2.2
    · cases h
  · rw [Bool.not_eq_true] at hb
    rw [hb] at h
    injection h with h2
    rw [← h2]
    exact hwf

theorem fill_WF (image : Image) (c : Color) (hwf : image.WF) : (image.fill c).WF := by
  refine ⟨hwf.1, hwf.2.1, ?_⟩
  show ((image.m_pixels.map fun _ => c).length : Int) = _
  rw [List.length_map]
  exact hwf.2.2

theorem create_invariant (width height : Int) (c : Color)
    (hov : width ≤ 0 ∨ height ≤ 0 ∨ width * height < 2147483648) :
    ∃ image, Image.create width height c = .ok image ∧ image.WF
      ∧ (image.m_width = 0 ↔ image.m_height = 0) := by
  by_cases h : width ≤ 0 ∨ height ≤ 0
  · refine ⟨Image.empty, ?_, empty_WF, by decide⟩
    unfold Image.create
    rw [if_pos h]
  · have hw : 1 ≤ width := by omega
    have hh : 1 ≤ height := by omega
    have hov2 : width * height < 2147483648 := by omega
    refine ⟨_, create_ok width height c hw hh hov2, create_WF width height c hw hh hov2, ?_⟩
    show width = 0 ↔ height = 0
    omega

/-- Claim C20, the code at `Image(65536, 65536)`: the product of the sizes wraps to 0
in `int`, so the vector is resized to no pixels while the width and the height are
stored as given; the buffer has no pixels, breaks `pixels.length = width * height`,
and is empty with a non-zero width and height. -/
theorem create_overflow_breaks_invariant :
    Image.create 65536 65536 (Color.gray 1) = .ok ⟨[], 65536, 65536⟩
      ∧ ¬ (Image.mk [] 65536 65536).WF
      ∧ (Image.mk [] 65536 65536).isEmpty = true
      ∧ (Image.mk [] 65536 65536).width ≠ 0 ∧ (Image.mk [] 65536 65536).height ≠ 0
      ∧ (Image.mk [] 65536 65536).getPixel 0 0 = .error .outOfRange :=
  ⟨by with_unfolding_all rfl, by decide, rfl, by decide, by decide,
    by with_unfolding_all rfl⟩


/-! ## The row stride -/

/-- Claim C21. For every width `w ≥ 0` with `3w + 3` in the `int` range, the `int`
expression `((w*3 + 3) / 4) * 4` of `SaveBMP`, `LoadBMP` and `BMPHeader::Make` is
`ceil(3w/4) * 4`: a multiple of 4 with `3w ≤ rowSize < 3w + 4`, and the least
multiple of 4 that is at least `3w`. -/
theorem rowSize_least_multiple (w : Int) (hw0 : 0 ≤ w) (hW : 3 * w + 3 < 2147483648) :
    BMPHeader.rowSize w = ⌈((3 * w : Int) : ℚ) / 4⌉ * 4
      ∧ BMPHeader.rowSize w % 4 = 0
      ∧ 3 * w ≤ BMPHeader.rowSize w ∧ BMPHeader.rowSize w < 3 * w + 4
      ∧ ∀ m : Int, m % 4 = 0 → 3 * w ≤ m → BMPHeader.rowSize w ≤ m := by
  rw [rowSize_eq w hw0 hW]
  unfold rowStride
  have h1 : (3 * w + 3) / 4 * 4 ≤ 3 * w + 3 := by omega
  have h2 : 3 * w < (3 * w + 3) / 4 * 4 + 1 := by omega
  refine ⟨?_, by omega, by omega, by omega, ?_⟩
  · have hc : ⌈((3 * w : Int) : ℚ) / 4⌉ = (3 * w + 3) / 4 := by
      rw [Int.ceil_eq_iff]
      have e1 : (((3 * w + 3) / 4 * 4 : Int) : ℚ) ≤ ((3 * w + 3 : Int) : ℚ) := by
        exact_mod_cast h1
      have e2 : (((3 * w : Int)) : ℚ) + 1 ≤ (((3 * w + 3) / 4 * 4 + 1 : Int) : ℚ) := by
        exact_mod_cast h2
      have e3 : ((3 * w : Int) : ℚ) ≤ (((3 * w + 3) / 4 * 4 : Int) : ℚ) := by
        have : 3 * w ≤ (3 * w + 3) / 4 * 4 := by omega
        exact_mod_cast this
      push_cast at e1 e2 e3 ⊢
      constructor
      · linarith
      · linarith
    rw [hc]
  · intro m hm hle
    omega

/-- Witness of `rowSize_least_multiple` (claim C21) at width 2. -/
theorem rowSize_least_multiple_witness :
    BMPHeader.rowSize 2 = ⌈((3 * 2 : Int) : ℚ) / 4⌉ * 4
      ∧ BMPHeader.rowSize 2 % 4 = 0
      ∧ 3 * 2 ≤ BMPHeader.rowSize 2 ∧ BMPHeader.rowSize 2 < 3 * 2 + 4
      ∧ ∀ m : Int, m % 4 = 0 → 3 * 2 ≤ m → BMPHeader.rowSize 2 ≤ m :=
  rowSize_least_multiple 2 (by decide) (by decide)

/-! ## The header fields that `LoadBMP` consults -/

theorem byteAt_congr (bs1 bs2 : List Byte) (i : Nat) (h : bs1[i]? = bs2[i]?) :
    byteAt bs1 i = byteAt bs2 i := by
  unfold byteAt
  rw [List.getD_eq_getElem?_getD, List.getD_eq_getElem?_getD, h]

/-- Claim C23. Two byte sources of equal length that agree on bytes 0 and 1 (magic),
18 to 21 (width), 22 to 25 (height), 28 and 29 (bit count) and on every byte from
offset 54 on give the same result of `LoadBMP`, whatever the other header bytes
are. -/
theorem LoadBMP_depends_on_four_fields (bs1 bs2 : List Byte) (hlen : bs1.length = bs2.length)
    (hhdr : ∀ i ∈ [0, 1, 18, 19, 20, 21, 22, 23, 24, 25, 28, 29], bs1[i]? = bs2[i]?)
    (hdata : ∀ i, 54 ≤ i → bs1[i]? = bs2[i]?) :
    LoadBMP (.ofBytes bs1) = LoadBMP (.ofBytes bs2) := by
  by_cases hshort : bs1.length < 54
  · rw [LoadBMP_rejects bs1 (Or.inl hshort), LoadBMP_rejects bs2 (Or.inl (by omega))]
  · have hl1 : 54 ≤ bs1.length := by omega
    have hl2 : 54 ≤ bs2.length := by omega
    have b : ∀ i ∈ [0, 1, 18, 19, 20, 21, 22, 23, 24, 25, 28, 29],
        byteAt bs1 i = byteAt bs2 i := fun i hi => byteAt_congr bs1 bs2 i (hhdr i hi)
    have hm : u16At bs1 0 = u16At bs2 0 := by
      unfold u16At
      rw [b 0 (by decide), b (0 + 1) (by decide)]
    have hb : u16At bs1 28 = u16At bs2 28 := by
      unfold u16At
      rw [b 28 (by decide), b (28 + 1) (by decide)]
    have hw : i32At bs1 18 = i32At bs2 18 := by
      unfold i32At u32At
      rw [b 18 (by decide), b (18 + 1) (by decide), b (18 + 2) (by decide),
        b (18 + 3) (by decide)]
    have hh : i32At bs1 22 = i32At bs2 22 := by
      unfold i32At u32At
      rw [b 22 (by decide), b (22 + 1) (by decide), b (22 + 2) (by decide),
        b (22 + 3) (by decide)]
    have hd : bs1.drop 54 = bs2.drop 54 := by
      apply List.ext_getElem?
      intro i
      rw [List.getElem?_drop, List.getElem?_drop]
      exact hdata (54 + i) (by omega)
    rw [LoadBMP_ofBytes bs1 hl1, LoadBMP_ofBytes bs2 hl2, hm, hb, hw, hh, hd]

/-- Witness of `LoadBMP_depends_on_four_fields` (claim C23): two 1 by 1 files that
differ in every header field that is not consulted. -/
theorem LoadBMP_depends_on_four_fields_witness :
    LoadBMP (.ofBytes compressedSource) = LoadBMP (.ofBytes otherFieldsSource) :=
  LoadBMP_depends_on_four_fields compressedSource otherFieldsSource (by decide) (by decide)
    (by
      intro i hi
      by_cases h : i < 58
      · interval_cases i <;> rfl
      · rw [List.getElem?_eq_none (by
            show compressedSource.length ≤ i
            have : compressedSource.length = 58 := by decide
            omega),
          List.getElem?_eq_none (by
            show otherFieldsSource.length ≤ i
            have : otherFieldsSource.length = 58 := by decide
            omega)])

/-! ## Encoding the empty buffer -/

/-- Claim C24. For the empty buffer and an opened sink that takes 54 bytes, `SaveBMP`
returns `true` and writes exactly the 54 bytes of the header, with width 0, height 0,
file size 54 and image size 0; `LoadBMP` on those bytes returns the empty buffer, the
value it also returns for a source that cannot be opened and for a source without a
header. -/
theorem SaveBMP_empty (room : Nat) (hroom : 54 ≤ room) :
    ∃ wr, SaveBMP Image.empty (.opened room) = .ok (true, wr) ∧ wr.good = true
      ∧ wr.written = (BMPHeader.Make 0 0).toBytes ∧ wr.written.length = 54
      ∧ wr.written[0]? = some 0x42 ∧ wr.written[1]? = some 0x4D
      ∧ i32At wr.written 18 = 0 ∧ i32At wr.written 22 = 0
      ∧ u32At wr.written 2 = 54 ∧ u32At wr.written 34 = 0
      ∧ LoadBMP (.ofBytes wr.written) = .ok Image.empty
      ∧ LoadBMP ⟨false, []⟩ = .ok Image.empty
      ∧ LoadBMP (.ofBytes []) = .ok Image.empty := by
  have hs := SaveBMP_ok Image.empty (by decide) (by decide) (by decide) room (by
    have : (rowStride Image.empty.m_width * Image.empty.m_height).toNat = 0 := by decide
    omega)
  have hf : fileBytes Image.empty = (BMPHeader.Make 0 0).toBytes := by
    with_unfolding_all rfl
  have e : (BMPHeader.Make 0 0).toBytes = emptyFile := by
    with_unfolding_all rfl
  rw [hf] at hs
  refine ⟨_, hs, rfl, rfl, ?_, ?_, ?_, ?_, ?_, ?_, ?_, ?_, ?_, ?_⟩
  · show (BMPHeader.Make 0 0).toBytes.length = 54
    rw [e]
    rfl
  · show (BMPHeader.Make 0 0).toBytes[0]? = some 0x42
    rw [e]
    rfl
  · show (BMPHeader.Make 0 0).toBytes[1]? = some 0x4D
    rw [e]
    rfl
  · show i32At (BMPHeader.Make 0 0).toBytes 18 = 0
    rw [e]
    with_unfolding_all rfl
  · show i32At (BMPHeader.Make 0 0).toBytes 22 = 0
    rw [e]
    with_unfolding_all rfl
  · show u32At (BMPHeader.Make 0 0).toBytes 2 = 54
    rw [e]
    rfl
  · show u32At (BMPHeader.Make 0 0).toBytes 34 = 0
    rw [e]
    rfl
  · show LoadBMP (.ofBytes (BMPHeader.Make 0 0).toBytes) = .ok Image.empty
    rw [e]
    with_unfolding_all rfl
  · rfl
  · with_unfolding_all rfl

/-- Witness of `SaveBMP_empty` (claim C24) at a sink that takes 54 bytes. -/
theorem SaveBMP_empty_witness :
    54 ≤ 54 ∧ ∃ wr, SaveBMP Image.empty (.opened 54) = .ok (true, wr) ∧ wr.good = true
      ∧ wr.written = (BMPHeader.Make 0 0).toBytes ∧ wr.written.length = 54
      ∧ wr.written[0]? = some 0x42 ∧ wr.written[1]? = some 0x4D
      ∧ i32At wr.written 18 = 0 ∧ i32At wr.written 22 = 0
      ∧ u32At wr.written 2 = 54 ∧ u32At wr.written 34 = 0
      ∧ LoadBMP (.ofBytes wr.written) = .ok Image.empty
      ∧ LoadBMP ⟨false, []⟩ = .ok Image.empty
      ∧ LoadBMP (.ofBytes []) = .ok Image.empty :=
  ⟨by decide, SaveBMP_empty 54 (by decide)⟩


/-! ## Encoding a decoded file again -/

theorem quantize_byte (k : Byte) : quantize ((k.val : ℚ) / 255) = k := by
  apply Fin.ext
  have hv := quantize_val ((k.val : ℚ) / 255)
  have hk : k.val < 256 := k.isLt
  have hk0 : (0 : ℚ) ≤ (k.val : ℚ) := Nat.cast_nonneg _
  have hk1 : (k.val : ℚ) ≤ 255 := by
    have : k.val ≤ 255 := by omega
    exact_mod_cast this
  have e : (k.val : ℚ) / 255 * 255 + 1 / 2 = (k.val : ℚ) + 1 / 2 := by
    field_simp
  rw [e] at hv
  have hfl : ⌊clamp ((k.val : ℚ) + 1 / 2) 0 255⌋ = (k.val : Int) := by
    unfold clamp
    rw [if_neg (by linarith)]
    by_cases h : (255 : ℚ) < (k.val : ℚ) + 1 / 2
    · rw [if_pos h]
      have h2 : (254 : ℚ) < (k.val : ℚ) := by linarith
      have h3 : 254 < k.val := by exact_mod_cast h2
      have h4 : k.val = 255 := by omega
      rw [h4]
      norm_num
    · rw [if_neg h, Int.floor_eq_iff]
      constructor
      · push_cast
        linarith
      · push_cast
        linarith
  rw [hfl] at hv
  exact_mod_cast hv

theorem flatMap_range_congr {β : Type} (n : Nat) (f g : Nat → List β)
    (h : ∀ i, i < n → f i = g i) :
    (List.range n).flatMap f = (List.range n).flatMap g := by
  induction n with
  | zero => rfl
  | succ n ih =>
    rw [List.range_succ, List.flatMap_append, List.flatMap_append,
      ih (fun i hi => h i (by omega))]
    show _ ++ (f n ++ []) = _ ++ (g n ++ [])
    rw [h n (by omega)]

theorem fileBytes_congr (a b : Image) (hw : a.m_width = b.m_width)
    (hh : a.m_height = b.m_height)
    (hpx : ∀ r x, 0 ≤ r → r < b.m_height → 0 ≤ x → x < b.m_width →
      pixelBytes (a.px r x) = pixelBytes (b.px r x)) :
    fileBytes a = fileBytes b := by
  unfold fileBytes pixelData
  rw [hw, hh]
  have hrows : ∀ y, y < b.m_height.toNat →
      rowBytes a (b.m_height - 1 - (y : Int)) = rowBytes b (b.m_height - 1 - (y : Int)) := by
    intro y hy
    unfold rowBytes
    rw [hw]
    have hcols := flatMap_range_congr b.m_width.toNat
      (fun x : Nat => pixelBytes (a.px (b.m_height - 1 - (y : Int)) x))
      (fun x : Nat => pixelBytes (b.px (b.m_height - 1 - (y : Int)) x))
      (fun x hx => hpx _ _ (by omega) (by omega) (by omega) (by omega))
    rw [hcols]
  rw [flatMap_range_congr b.m_height.toNat _ _ hrows]

/-- Claim C22, within the `int` range. For every byte `k` the quantization of
`k/255` is `k`; and for every buffer that satisfies the class invariant, with width
and height at least 1, any rational channel values and sizes that fit in `int`,
saved to an opened sink that takes the whole file: `SaveBMP` succeeds, `LoadBMP`
decodes the written bytes to a buffer, and `SaveBMP` of that buffer writes exactly the
same bytes. -/
theorem SaveBMP_reencode (image : Image) (hwf : image.WF)
    (hw : 1 ≤ image.width) (hh : 1 ≤ image.height)
    (hW : 3 * image.width + 3 < 2147483648)
    (hov : rowStride image.width * image.height < 2147483648)
    (room : Nat) (hroom : 54 + (rowStride image.width * image.height).toNat ≤ room) :
    (∀ k : Byte, quantize ((k.val : ℚ) / 255) = k)
      ∧ ∃ wr image2 wr2, SaveBMP image (.opened room) = .ok (true, wr)
        ∧ LoadBMP (.ofBytes wr.written) = .ok image2
        ∧ SaveBMP image2 (.opened room) = .ok (true, wr2)
        ∧ wr2.written = wr.written := by
  unfold Image.width Image.height at *
  refine ⟨quantize_byte, ?_⟩
  have hwf0 := hwf
  obtain ⟨hw0, hh0, hlen⟩ := hwf
  have hsb := rowStride_bounds image.m_width
  have hwh : image.m_width * image.m_height ≤ rowStride image.m_width * image.m_height :=
    Int.mul_le_mul_of_nonneg_right (by omega) hh0
  have hov2 : image.m_width * image.m_height < 2147483648 := lt_of_le_of_lt hwh hov
  have hsave := SaveBMP_ok image hwf0 hW hov2 room hroom
  obtain ⟨image2, hload, hw2, hh2, hlen2, hpx⟩ := LoadBMP_fileBytes image hwf0 hw hh hW hov
  have hwf2 : image2.WF := by
    refine ⟨?_, ?_, ?_⟩
    · rw [hw2]; exact hw0
    · rw [hh2]; exact hh0
    · rw [hlen2, hw2, hh2]
  have hsave2 := SaveBMP_ok image2 hwf2 (by rw [hw2]; exact hW) (by rw [hw2, hh2]; exact hov2)
    room (by rw [hw2, hh2]; exact hroom)
  have hfile : fileBytes image2 = fileBytes image := by
    apply fileBytes_congr image2 image hw2 hh2
    intro r x hr0 hr hx0 hx
    rw [hpx r x hr0 hr hx0 hx]
    unfold pixelBytes
    show [quantize (((quantize (image.px r x).b).val : ℚ) / 255),
      quantize (((quantize (image.px r x).g).val : ℚ) / 255),
      quantize (((quantize (image.px r x).r).val : ℚ) / 255)] = _
    rw [quantize_byte, quantize_byte, quantize_byte]
  rw [hfile] at hsave2
  exact ⟨_, image2, _, hsave, hload, hsave2, rfl⟩

/-- Witness of `SaveBMP_reencode` (claim C22) at the 2 by 2 sample image, which has
channels outside `[0, 1]`. -/
theorem SaveBMP_reencode_witness :
    (∀ k : Byte, quantize ((k.val : ℚ) / 255) = k)
      ∧ ∃ wr image2 wr2, SaveBMP sampleImage (.opened 100) = .ok (true, wr)
        ∧ LoadBMP (.ofBytes wr.written) = .ok image2
        ∧ SaveBMP image2 (.opened 100) = .ok (true, wr2)
        ∧ wr2.written = wr.written :=
  SaveBMP_reencode sampleImage (by decide) (by decide) (by decide) (by decide) (by decide)
    100 (by decide)

/-- Counterexample to claim C22 as stated: for the image of width 715827882 and
height 1 the row size overflows to a negative `int` and the first `SaveBMP` throws
when it allocates the row buffer, whatever the sink, so there is no file to decode
and encode again. -/
theorem SaveBMP_reencode_wide_throws :
    wideImage.WF ∧ 1 ≤ wideImage.width ∧ 1 ≤ wideImage.height
      ∧ ∀ room, SaveBMP wideImage (.opened room) = .error .lengthError := by
  refine ⟨⟨by decide, by decide, ?_⟩, by decide, by decide, ?_⟩
  · show ((List.replicate 715827882 (Color.gray 0)).length : Int) = 715827882 * 1
    rw [List.length_replicate]
    rfl
  · intro room
    have hr : BMPHeader.rowSize wideImage.width = -2147483644 := by
      with_unfolding_all rfl
    unfold SaveBMP
    simp only [hr]
    rfl

end mini
